import Mathlib

/-!
Verification of the ClawGuard core against its specification.

This file gives a shallow embedding of the TypeScript sources of ClawGuard
(zip reader, source ingest, scanner, rule engine, policy evaluator, trust
store, hashing, CLI limit clamping) and proves or refutes the frozen claims
about them.

Modelling conventions:
- A JavaScript string is modelled as a list of characters (`JSStr`).
- A Node `Buffer` or `Uint8Array` is a list of natural numbers (`Buffer`),
  one per byte.
- Opaque host primitives that the claims do not depend on in detail are
  passed as explicit function parameters, so every theorem quantifies over
  them: UTF-8 decoding of zip entry names (`decode`), `zlib.inflateRawSync`
  (`inflate`), the regex engine (`matchAll`, `regexTest`), the WHATWG URL
  parser (`parseURL`), SHA-256 (`sha256`), base64 decoding (`b64dec`) and
  the `localeCompare` collation (`cmp`).
- Fallible TypeScript code (throwing) is modelled with `Except`.
-/

namespace ClawGuard

/-- JavaScript string, as its sequence of characters. -/
abbrev JSStr := List Char

/-- Convenience: build a `JSStr` from a Lean string literal. -/
def js (s : String) : JSStr := s.data

/-- `String.prototype.split(sep)` semantics: keeps empty segments,
splitting the empty string yields one empty segment. -/
def splitOnChar (sep : Char) : List Char → List (List Char)
  | [] => [[]]
  | c :: rest =>
    let r := splitOnChar sep rest
    if c = sep then [] :: r
    else
      match r with
      | h :: t => (c :: h) :: t
      | [] => [[c]]

/-- Characters removed by `String.prototype.trim` (ASCII fragment of the
JS whitespace set; the sources only ever trim ASCII configuration data). -/
def isJsWhite (c : Char) : Bool :=
  c = ' ' || c = '\t' || c = '\n' || c = '\r' || c.toNat = 11 || c.toNat = 12

/-- `String.prototype.trim`. -/
def jsTrim (s : JSStr) : JSStr :=
  ((s.dropWhile isJsWhite).reverse.dropWhile isJsWhite).reverse

/-- ASCII case folding used for `toLowerCase()` on paths and domains; the
extension and domain tables compared against are ASCII. -/
def jsLowerChar (c : Char) : Char :=
  if 'A' ≤ c ∧ c ≤ 'Z' then Char.ofNat (c.toNat + 32) else c

/-- `String.prototype.toLowerCase` (ASCII fragment). -/
def jsToLower (s : JSStr) : JSStr := s.map jsLowerChar

/-- `String.prototype.endsWith`. -/
def jsEndsWith (s suffix : JSStr) : Bool :=
  suffix.reverse.isPrefixOf s.reverse

/-- Auxiliary for `String.prototype.includes`. -/
def hasSubList (sub : List Char) : List Char → Bool
  | [] => sub.isEmpty
  | c :: rest => sub.isPrefixOf (c :: rest) || hasSubList sub rest

/-- `String.prototype.includes` (substring containment). -/
def jsIncludes (hay sub : JSStr) : Bool := hasSubList sub hay

/-- `String(n)` for an integer. -/
def intToJsStr (n : Int) : JSStr := (toString n).data

/-- `String(n)` for a natural number. -/
def natToJsStr (n : Nat) : JSStr := (toString n).data

/-- `Array.prototype.join(sep)` for a one-character separator. -/
def joinWith (sep : Char) : List (List Char) → List Char
  | [] => []
  | [p] => p
  | p :: q :: rest => p ++ sep :: joinWith sep (q :: rest)

end ClawGuard

namespace ClawGuard

/-! ### packages/cli/src/zip.ts -/

/-- An in-memory byte buffer (Node `Buffer`), one `Nat` per byte. -/
abbrev Buffer := List Nat

/-- Read one byte; the source only reads in bounds (it checks first), the
out-of-bounds default is never hit on the paths the theorems talk about. -/
def byteAt (buf : Buffer) (i : Nat) : Nat := buf.getD i 0

/-- `buf.readUInt16LE(off)`. -/
def u16 (buf : Buffer) (off : Nat) : Nat :=
  byteAt buf off + 256 * byteAt buf (off + 1)

/-- `buf.readUInt32LE(off)`. -/
def u32 (buf : Buffer) (off : Nat) : Nat :=
  byteAt buf off + 256 * byteAt buf (off + 1) +
    65536 * byteAt buf (off + 2) + 16777216 * byteAt buf (off + 3)

/-- `findEndOfCentralDirectory`: scan backwards from `len - 22` down to
`max 0 (len - (22 + 0xffff))` for the EOCD signature `0x06054b50`;
`none` models the `-1` return. -/
def findEndOfCentralDirectory (buf : Buffer) : Option Nat :=
  if buf.length < 22 then none
  else
    let top := buf.length - 22
    let start := buf.length - (22 + 65535)
    ((List.range (top - start + 1)).map (fun k => top - k)).find?
      (fun i => u32 buf i = 0x06054b50)

/-- `isSymlinkExternalAttrs`: upper 16 bits as a unix mode, file type
`0o120000`. -/
def isSymlinkExternalAttrs (externalAttrs : Nat) : Bool :=
  let mode := (externalAttrs / 65536) % 65536
  Nat.land mode 0o170000 = 0o120000

/-- `isExecutableExternalAttrs`: any of the `0o111` bits. -/
def isExecutableExternalAttrs (externalAttrs : Nat) : Bool :=
  let mode := (externalAttrs / 65536) % 65536
  Nat.land mode 0o111 ≠ 0

/-- `sanitizeZipPath`: reject empty names, names with a NUL, names starting
with `/` or `\`, and names with a `.` or `..` segment; otherwise drop empty
segments and rejoin with `/`. -/
def sanitizeZipPath (name : JSStr) : Option JSStr :=
  if name = [] then none
  else if name.contains (Char.ofNat 0) then none
  else if (js "/").isPrefixOf name || (js "\\").isPrefixOf name then none
  else
    let parts := (splitOnChar '/' name).filter (fun p => p.length > 0)
    if parts.any (fun p => p = js "." || p = js "..") then none
    else some (joinWith '/' parts)

structure ZipEntry where
  name : JSStr
  compressedSize : Nat
  uncompressedSize : Nat
  compressionMethod : Nat
  localHeaderOffset : Nat
  externalAttrs : Nat
  isDirectory : Bool
  rawName : JSStr
deriving DecidableEq

structure ZipLimits where
  maxEntries : Nat
  maxTotalUncompressedBytes : Nat
  maxEntryBytes : Nat
deriving DecidableEq

structure ZipListDiagnostics where
  entries : List ZipEntry
  invalidPaths : List JSStr
deriving DecidableEq

/-- The central-directory loop of `listZipEntriesWithDiagnostics`.
`count` is the number of entries still to read, `off` the running offset,
`acc` the diagnostics accumulated so far (in order). `decode` models
`Buffer.prototype.toString('utf8')` on the name bytes. -/
def parseCentralDirectory (decode : List Nat → JSStr) (buf : Buffer) :
    Nat → Nat → ZipListDiagnostics → Except JSStr ZipListDiagnostics
  | 0, _, acc => .ok acc
  | n + 1, off, acc =>
    if off + 46 > buf.length then .error (js "invalid zip: truncated central directory")
    else if u32 buf off ≠ 0x02014b50 then .error (js "invalid zip: bad central dir signature")
    else
      let compressionMethod := u16 buf (off + 10)
      let compressedSize := u32 buf (off + 20)
      let uncompressedSize := u32 buf (off + 24)
      let fileNameLen := u16 buf (off + 28)
      let extraLen := u16 buf (off + 30)
      let commentLen := u16 buf (off + 32)
      let externalAttrs := u32 buf (off + 38)
      let localHeaderOffset := u32 buf (off + 42)
      let nameRaw := decode ((buf.drop (off + 46)).take fileNameLen)
      let off2 := off + 46 + fileNameLen + extraLen + commentLen
      match sanitizeZipPath nameRaw with
      | none =>
        parseCentralDirectory decode buf n off2
          { acc with invalidPaths := acc.invalidPaths ++ [nameRaw] }
      | some nm =>
        parseCentralDirectory decode buf n off2
          { acc with
            entries := acc.entries ++ [{
              name := nm
              compressedSize := compressedSize
              uncompressedSize := uncompressedSize
              compressionMethod := compressionMethod
              localHeaderOffset := localHeaderOffset
              externalAttrs := externalAttrs
              isDirectory := jsEndsWith nameRaw (js "/")
              rawName := nameRaw }] }

/-- `listZipEntriesWithDiagnostics`. -/
def listZipEntriesWithDiagnostics (decode : List Nat → JSStr) (buf : Buffer)
    (limits : ZipLimits) : Except JSStr ZipListDiagnostics :=
  match findEndOfCentralDirectory buf with
  | none => .error (js "invalid zip: missing EOCD")
  | some eocd =>
    let totalEntries := u16 buf (eocd + 10)
    let cdSize := u32 buf (eocd + 12)
    let cdOffset := u32 buf (eocd + 16)
    if totalEntries > limits.maxEntries then .error (js "zip exceeds maxEntries")
    else if cdOffset + cdSize > buf.length then .error (js "invalid zip: central directory out of bounds")
    else parseCentralDirectory decode buf totalEntries cdOffset ⟨[], []⟩

/-- `extractZipEntry`. `inflate` models `zlib.inflateRawSync` (which may
throw). Returns `none` for directories, symlinks, entries whose declared
uncompressed size exceeds the cap, and unsupported compression methods. -/
def extractZipEntry (inflate : List Nat → Except JSStr (List Nat))
    (buf : Buffer) (entry : ZipEntry) (limits : ZipLimits) :
    Except JSStr (Option (List Nat)) :=
  if entry.isDirectory then .ok none
  else if isSymlinkExternalAttrs entry.externalAttrs then .ok none
  else if entry.uncompressedSize > limits.maxEntryBytes then .ok none
  else
    let off := entry.localHeaderOffset
    if off + 30 > buf.length then .error (js "invalid zip: truncated local header")
    else if u32 buf off ≠ 0x04034b50 then .error (js "invalid zip: bad local header signature")
    else
      let fileNameLen := u16 buf (off + 26)
      let extraLen := u16 buf (off + 28)
      let dataOff := off + 30 + fileNameLen + extraLen
      let dataEnd := dataOff + entry.compressedSize
      if dataEnd > buf.length then .error (js "invalid zip: entry data out of bounds")
      else
        let data := (buf.drop dataOff).take entry.compressedSize
        match entry.compressionMethod with
        | 0 => .ok (some data)
        | 8 =>
          match inflate data with
          | .ok out => .ok (some out)
          | .error e => .error e
        | _ => .ok none

/-- The selection loop of `selectZipFilesForScan`. -/
def selectZipFilesGo (limits : ZipLimits) :
    List ZipEntry → List ZipEntry → Nat → List ZipEntry
  | [], picked, _ => picked
  | entry :: rest, picked, total =>
    if picked.length ≥ limits.maxEntries then picked
    else if entry.isDirectory then selectZipFilesGo limits rest picked total
    else if entry.uncompressedSize = 0 then selectZipFilesGo limits rest picked total
    else if entry.uncompressedSize > limits.maxEntryBytes then selectZipFilesGo limits rest picked total
    else if total + entry.uncompressedSize > limits.maxTotalUncompressedBytes then picked
    else selectZipFilesGo limits rest (picked ++ [entry]) (total + entry.uncompressedSize)

/-- `selectZipFilesForScan`. -/
def selectZipFilesForScan (entries : List ZipEntry) (limits : ZipLimits) : List ZipEntry :=
  selectZipFilesGo limits entries [] 0

/-- `zipEntryIsSymlink`. -/
def zipEntryIsSymlink (entry : ZipEntry) : Bool :=
  isSymlinkExternalAttrs entry.externalAttrs

/-- `zipEntryIsExecutable`. -/
def zipEntryIsExecutable (entry : ZipEntry) : Bool :=
  isExecutableExternalAttrs entry.externalAttrs

/-! ### packages/cli/src/text.ts -/

/-- The extension allow-list of `text.ts`. -/
def TEXT_EXTENSIONS : List JSStr :=
  [js ".md", js ".markdown", js ".txt", js ".sh", js ".bash", js ".zsh",
   js ".ps1", js ".py", js ".js", js ".mjs", js ".ts", js ".json",
   js ".toml", js ".yaml", js ".yml"]

/-- `isLikelyTextPath`. -/
def isLikelyTextPath (path : JSStr) : Bool :=
  TEXT_EXTENSIONS.any (fun ext => jsEndsWith (jsToLower path) ext)

/-- `looksBinary`. The source compares `weird / sample.length > 0.2` in
floating point; for samples of at most 4096 bytes that comparison is exact
and equivalent to `5 * weird > sample.length` (the nearest rational with
`weird / len` in the rounding gap of the double `0.2` would need a
denominator above 2^50). -/
def looksBinary (bytes : List Nat) : Bool :=
  if bytes.length = 0 then false
  else
    let sample := bytes.take 4096
    let zeros := (sample.filter (fun b => b = 0)).length
    let weird := (sample.filter (fun b => b < 9 || (b > 13 && b < 32))).length
    if zeros > 0 then true
    else 5 * weird > sample.length

/-! ### packages/cli/src/limits.ts -/

structure IngestLimits where
  maxFiles : Nat
  maxTotalBytes : Nat
  maxFileBytes : Nat
  maxZipBytes : Nat
  maxZipEntryBytes : Nat
  timeoutMs : Nat
  retries : Nat
deriving DecidableEq

/-- `DEFAULT_INGEST_LIMITS`. -/
def DEFAULT_INGEST_LIMITS : IngestLimits :=
  { maxFiles := 200
    maxTotalBytes := 5000000
    maxFileBytes := 1000000
    maxZipBytes := 25000000
    maxZipEntryBytes := 1000000
    timeoutMs := 12000
    retries := 2 }

/-- `clampInt`: a non-finite value (`NaN` from a failed parse, modelled as
`none`) yields `min`; otherwise truncate and clamp. -/
def clampInt (value : Option Int) (lo hi : Int) : Int :=
  match value with
  | none => lo
  | some v => min hi (max lo v)

/-! ### packages/core data model (wire types used by cli and core) -/

/-- A bundle file (`SkillFile` of `types.ts`). -/
structure SkillFile where
  path : JSStr
  content_text : Option JSStr
  content_bytes_b64 : Option JSStr
deriving DecidableEq

/-- A manifest entry (`SkillManifestEntry`); the type declaration itself is
not under `src/`, its fields are read off every construction site in
`source.ts` and every use in `receipt.ts` and the scanner. -/
structure SkillManifestEntry where
  path : JSStr
  raw_path : Option JSStr
  size_bytes : Option Int
  sha256 : Option JSStr
  sha256_partial : Option Bool
  is_directory : Option Bool
  is_symlink : Option Bool
  is_executable : Option Bool
  is_binary : Option Bool
  is_archive : Option Bool
  source_kind : Option JSStr
  skipped_reason : Option JSStr
deriving DecidableEq

/-- Fields of a manifest entry default to absent. -/
instance : Inhabited SkillManifestEntry :=
  ⟨{ path := [], raw_path := none, size_bytes := none, sha256 := none,
     sha256_partial := none, is_directory := none, is_symlink := none,
     is_executable := none, is_binary := none, is_archive := none,
     source_kind := none, skipped_reason := none }⟩

/-- `SkillBundle`. -/
structure SkillBundle where
  id : JSStr
  entrypoint : JSStr
  files : List SkillFile
  manifest : Option (List SkillManifestEntry)
  ingest_warnings : Option (List JSStr)
  source : Option JSStr
deriving DecidableEq

/-! ### packages/cli/src/source.ts (zip ingest) -/

/-- `isArchivePath`. -/
def isArchivePath (path : JSStr) : Bool :=
  [js ".zip", js ".tar", js ".tgz", js ".tar.gz", js ".gz", js ".bz2",
   js ".xz", js ".7z", js ".rar"].any (fun ext => jsEndsWith (jsToLower path) ext)

/-- `isSafeBinaryAssetPath`. -/
def isSafeBinaryAssetPath (path : JSStr) : Bool :=
  [js ".png", js ".jpg", js ".jpeg", js ".gif", js ".webp", js ".ico",
   js ".mp3", js ".wav", js ".mp4", js ".mov", js ".pdf", js ".woff",
   js ".woff2", js ".ttf", js ".otf"].any (fun ext => jsEndsWith (jsToLower path) ext)

/-- `isSuspiciousBinaryPath`. -/
def isSuspiciousBinaryPath (path : JSStr) : Bool :=
  [js ".exe", js ".dll", js ".dylib", js ".so", js ".node", js ".app",
   js ".pkg", js ".dmg", js ".msi", js ".wasm"].any (fun ext => jsEndsWith (jsToLower path) ext)

/-- `zipLimitsFromIngest`. -/
def zipLimitsFromIngest (limits : IngestLimits) : ZipLimits :=
  { maxEntries := limits.maxFiles
    maxTotalUncompressedBytes := limits.maxTotalBytes
    maxEntryBytes := limits.maxZipEntryBytes }

/-- The manifest entry recorded for an invalid zip path. -/
def manifestEntryForInvalidPath (raw : JSStr) : SkillManifestEntry :=
  { (default : SkillManifestEntry) with
    path := raw
    skipped_reason := some (js "invalid_path")
    raw_path := some raw
    source_kind := some (js "zip") }

/-- The manifest entry recorded for a zip entry. -/
def manifestEntryForZipEntry (entry : ZipEntry) : SkillManifestEntry :=
  if entry.isDirectory then
    { (default : SkillManifestEntry) with
      path := entry.name
      is_directory := some true
      source_kind := some (js "zip") }
  else
    { (default : SkillManifestEntry) with
      path := entry.name
      size_bytes := some (entry.uncompressedSize : Int)
      is_symlink := some (zipEntryIsSymlink entry)
      is_executable := some (zipEntryIsExecutable entry)
      is_archive := some (isArchivePath entry.name)
      is_binary := some (!isLikelyTextPath entry.name &&
        !isSafeBinaryAssetPath entry.name && isSuspiciousBinaryPath entry.name)
      source_kind := some (js "zip") }

/-- The extraction loop over the picked entries in
`buildBundleFromZipBytesInternal` (skips non-text paths, unextractable
entries and binary-sniffed buffers; propagates zip errors). -/
def extractPickedFiles (decode : List Nat → JSStr)
    (inflate : List Nat → Except JSStr (List Nat)) (bytes : Buffer)
    (zLimits : ZipLimits) : List ZipEntry → Except JSStr (List SkillFile)
  | [] => .ok []
  | entry :: rest =>
    if !isLikelyTextPath entry.name then
      extractPickedFiles decode inflate bytes zLimits rest
    else
      match extractZipEntry inflate bytes entry zLimits with
      | .error e => .error e
      | .ok none => extractPickedFiles decode inflate bytes zLimits rest
      | .ok (some contentBytes) =>
        if looksBinary contentBytes then
          extractPickedFiles decode inflate bytes zLimits rest
        else
          match extractPickedFiles decode inflate bytes zLimits rest with
          | .error e => .error e
          | .ok files => .ok ({ path := entry.name
                                content_text := some (decode contentBytes)
                                content_bytes_b64 := none } :: files)

/-- `buildBundleFromZipBytesInternal`. -/
def buildBundleFromZipBytesInternal (decode : List Nat → JSStr)
    (inflate : List Nat → Except JSStr (List Nat)) (bytes : Buffer)
    (limits : IngestLimits) (id : JSStr) : Except JSStr SkillBundle :=
  let zLimits := zipLimitsFromIngest limits
  match listZipEntriesWithDiagnostics decode bytes zLimits with
  | .error e => .error e
  | .ok listing =>
    let entries := listing.entries
    let picked := selectZipFilesForScan entries zLimits
    let manifest := listing.invalidPaths.map manifestEntryForInvalidPath ++
      entries.map manifestEntryForZipEntry
    match extractPickedFiles decode inflate bytes zLimits picked with
    | .error e => .error e
    | .ok files =>
      -- the source computes the same literal in both branches of its
      -- `files.some(...) ? 'SKILL.md' : 'SKILL.md'` conditional
      .ok { id := id
            entrypoint := js "SKILL.md"
            files := files
            manifest := some manifest
            ingest_warnings := none
            source := some (js "unknown") }

/-! ### packages/core/src/utils.ts -/

/-- `clamp`. -/
def clamp (value lo hi : Int) : Int := max lo (min hi value)

/-- `indexToLineCol`: 1-based line and column of a character index inside a
text, computed as in the source by splitting the prefix on newlines. -/
def indexToLineCol (text : JSStr) (index : Nat) : Nat × Nat :=
  if index = 0 then (1, 1)
  else
    let lines := splitOnChar '\n' (text.take index)
    (lines.length, (lines.getLastD []).length + 1)

/-! ### packages/core scan data model -/

inductive Severity where
  | low
  | medium
  | high
  | critical
deriving DecidableEq

/-- `RuleSelector` (the updated variant also carries `meta`, which the
scanner of `scan.ts` emits for manifest-derived signals). -/
inductive Selector where
  | markdown
  | codeblock
  | url
  | path
  | file
  | meta
deriving DecidableEq

structure ScanSignal where
  type : Selector
  text : JSStr
  file : Option JSStr
  offset : Option Nat
  baseLine : Option Nat
deriving DecidableEq

/-- A scan rule. `match_re` is the regex source (`match` in the wire format,
renamed because `match` is a Lean keyword). -/
structure Rule where
  id : JSStr
  title : JSStr
  severity : Severity
  reason_code : JSStr
  selectors : List Selector
  match_re : JSStr
  flags : Option JSStr
  score : Int
deriving DecidableEq

structure RulePack where
  pack_id : JSStr
  pack_version : JSStr
  rules : List Rule
deriving DecidableEq

structure ScanFinding where
  rule_id : JSStr
  severity : Severity
  reason_code : JSStr
  file : Option JSStr
  line : Option Nat
  column : Option Nat
  evidence : JSStr
deriving DecidableEq

structure ScanReport where
  api_version : Nat
  risk_score : Int
  findings : List ScanFinding
deriving DecidableEq

/-! ### packages/core rule engine (rule-engine.ts)

`matchAll pattern flags text` models `text.matchAll(new RegExp(pattern,
flags))`, returning for each match its start index and its matched
substring `match[0]`, in document order. The regex engine itself is host
functionality; every theorem below quantifies over it. -/

/-- `applyRules`: rule × signal × match order. -/
def applyRules (matchAll : JSStr → JSStr → JSStr → List (Nat × JSStr))
    (signals : List ScanSignal) (rules : List Rule) : List ScanFinding :=
  rules.flatMap (fun rule =>
    signals.flatMap (fun signal =>
      if rule.selectors.contains signal.type then
        (matchAll rule.match_re (rule.flags.getD (js "gi")) signal.text).map
          (fun m =>
            let location := indexToLineCol signal.text m.1
            { rule_id := rule.id
              severity := rule.severity
              reason_code := rule.reason_code
              file := signal.file
              line := some (signal.baseLine.getD 1 + location.1 - 1)
              column := some location.2
              evidence := m.2.take 220 })
      else []))

/-! ### packages/core/src/extract.ts

The code-fence regex ``` ```([a-zA-Z0-9_-]+)?\n([\s\S]*?)``` ``` is modelled
concretely: a match starts at three backticks, takes the maximal run of
language characters, requires a newline, and the lazy body extends to the
earliest following three backticks. The URL and path regexes are opaque
parameters (`urlM`, `pathM`), returning match index and matched text. -/

/-- Backtick test (character code 96). -/
def isTick (c : Char) : Bool := c.toNat = 96

/-- `[a-zA-Z0-9_-]`. -/
def isLangChar (c : Char) : Bool :=
  ('a' ≤ c && c ≤ 'z') || ('A' ≤ c && c ≤ 'Z') || ('0' ≤ c && c ≤ '9') ||
    c = '_' || c = '-'

/-- Earliest offset of three consecutive backticks. -/
def findTicks : List Char → Option Nat
  | a :: b :: c :: rest =>
    if isTick a && isTick b && isTick c then some 0
    else (findTicks (b :: c :: rest)).map (· + 1)
  | _ => none

/-- Attempt a fence match at the head of `s`; on success return the fenced
body (group 2) and the total matched length. -/
def fenceAt (s : List Char) : Option (JSStr × Nat) :=
  match s with
  | a :: b :: c :: rest =>
    if isTick a && isTick b && isTick c then
      let lang := rest.takeWhile isLangChar
      let afterLang := rest.drop lang.length
      match afterLang with
      | '\n' :: body =>
        match findTicks body with
        | some j => some (body.take j, 3 + lang.length + 1 + j + 3)
        | none => none
      | _ => none
    else none
  | _ => none

/-- The global scan of the fence regex: at each position try a match; on a
match, resume after it (RegExp `lastIndex` semantics). `fuel` bounds the
recursion by the remaining text length. Returns (match index, body) pairs. -/
def scanFencesGo : Nat → List Char → Nat → List (Nat × JSStr)
  | 0, _, _ => []
  | _ + 1, [], _ => []
  | fuel + 1, s@(_ :: rest), pos =>
    match fenceAt s with
    | some (body, len) => (pos, body) :: scanFencesGo fuel (s.drop len) (pos + len)
    | none => scanFencesGo fuel rest (pos + 1)

/-- All fence matches of a text, with their match indices. -/
def scanFences (text : JSStr) : List (Nat × JSStr) :=
  scanFencesGo text.length text 0

/-- `extractMarkdownSignals`. -/
def extractMarkdownSignals (urlM pathM : JSStr → List (Nat × JSStr))
    (text file : JSStr) : List ScanSignal :=
  let codeBlocks := (scanFences text).map (fun m =>
    { type := Selector.codeblock, text := m.2, file := some file,
      offset := none,
      baseLine := some ((splitOnChar '\n' (text.take m.1)).length + 1) })
  let urls := (urlM text).map (fun m =>
    { type := Selector.url, text := m.2, file := some file,
      offset := some m.1,
      baseLine := some (splitOnChar '\n' (text.take m.1)).length })
  let paths := (pathM text).map (fun m =>
    { type := Selector.path, text := jsTrim m.2, file := some file,
      offset := some m.1,
      baseLine := some (splitOnChar '\n' (text.take m.1)).length })
  ({ type := Selector.markdown, text := text, file := some file,
     offset := none, baseLine := none } :: codeBlocks) ++ urls ++ paths

/-! ### packages/core/src/scan.ts (the variant with manifest signals and
finding dedup) -/

/-- The scan-side `TEXT_EXTENSIONS` and `isTextFile`. -/
def isTextFile (path : JSStr) : Bool :=
  TEXT_EXTENSIONS.any (fun ext => jsEndsWith (jsToLower path) ext)

/-- `severityFloor`. -/
def severityFloor : Severity → Int
  | .critical => 80
  | .high => 60
  | .medium => 30
  | _ => 10

/-- The dedup key `${rule_id}|${file ?? ''}|${line ?? 0}|${column ?? 0}|${evidence}`. -/
def dedupeKey (f : ScanFinding) : JSStr :=
  f.rule_id ++ [Char.ofNat 124] ++ f.file.getD [] ++ [Char.ofNat 124] ++
    natToJsStr (f.line.getD 0) ++ [Char.ofNat 124] ++
    natToJsStr (f.column.getD 0) ++ [Char.ofNat 124] ++ f.evidence

/-- The loop of `dedupeFindings`, with the `seen` key set as a list. -/
def dedupeFindingsGo : List ScanFinding → List JSStr → List ScanFinding
  | [], _ => []
  | f :: rest, seen =>
    if seen.contains (dedupeKey f) then dedupeFindingsGo rest seen
    else f :: dedupeFindingsGo rest (dedupeKey f :: seen)

/-- `dedupeFindings`: keep the first finding for each key. -/
def dedupeFindings (findings : List ScanFinding) : List ScanFinding :=
  dedupeFindingsGo findings []

/-- The `meta` signals the scanner derives from one manifest entry. -/
def metaSignalsForEntry (entry : SkillManifestEntry) : List ScanSignal :=
  if entry.skipped_reason = some (js "invalid_path") then
    [{ type := Selector.meta,
       text := js "path_traversal_entry raw=" ++ (entry.raw_path.getD entry.path),
       file := some entry.path, offset := none, baseLine := some 1 }]
  else
    (if entry.is_symlink.getD false then
      [{ type := Selector.meta, text := js "symlink_entry path=" ++ entry.path,
         file := some entry.path, offset := none, baseLine := some 1 }] else []) ++
    (if entry.is_archive.getD false then
      [{ type := Selector.meta, text := js "nested_archive path=" ++ entry.path,
         file := some entry.path, offset := none, baseLine := some 1 }] else []) ++
    (if entry.is_executable.getD false then
      [{ type := Selector.meta, text := js "executable_file path=" ++ entry.path,
         file := some entry.path, offset := none, baseLine := some 1 }] else []) ++
    (if entry.is_binary.getD false then
      [{ type := Selector.meta, text := js "binary_file path=" ++ entry.path,
         file := some entry.path, offset := none, baseLine := some 1 }] else [])

/-- The signals the scanner collects for one bundle file. -/
def fileSignals (urlM pathM : JSStr → List (Nat × JSStr)) (file : SkillFile) :
    List ScanSignal :=
  let content := file.content_text.getD []
  if content = [] then []
  else if !isTextFile file.path then []
  else
    (if jsEndsWith (jsToLower file.path) (js ".md") then
      extractMarkdownSignals urlM pathM content file.path else []) ++
    [{ type := Selector.file, text := content, file := some file.path,
       offset := none, baseLine := some 1 }]

/-- All signals collected by `scanSkillBundle`, in emission order:
ingest-warning metas, manifest metas, then per-file signals. -/
def bundleSignals (urlM pathM : JSStr → List (Nat × JSStr))
    (bundle : SkillBundle) : List ScanSignal :=
  (bundle.ingest_warnings.getD []).map (fun warning =>
    { type := Selector.meta, text := js "ingest_warning: " ++ warning,
      file := some (js "MANIFEST"), offset := none, baseLine := some 1 }) ++
  (bundle.manifest.getD []).flatMap metaSignalsForEntry ++
  bundle.files.flatMap (fileSignals urlM pathM)

/-- `scanSkillBundle` (the default rule pack is data loaded from disk at
runtime; it is a parameter here, as is the regex engine). -/
def scanSkillBundle (matchAll : JSStr → JSStr → JSStr → List (Nat × JSStr))
    (urlM pathM : JSStr → List (Nat × JSStr)) (rulePack : RulePack)
    (bundle : SkillBundle) : ScanReport :=
  let signals := bundleSignals urlM pathM bundle
  let findings := dedupeFindings (applyRules matchAll signals rulePack.rules)
  let scoreSum := findings.foldl (fun sum finding =>
    sum + ((rulePack.rules.find? (fun rule => rule.id = finding.rule_id)).map
      Rule.score).getD 0) 0
  let floor := findings.foldl (fun mx finding =>
    max mx (severityFloor finding.severity)) 0
  { api_version := 1
    risk_score := clamp (max scoreSum floor) 0 100
    findings := findings }

/-! ### packages/core/src/policy.ts and the utils it uses -/

/-- `toArray`: trim each entry, drop empties, default to empty. -/
def toArray (value : Option (List JSStr)) : List JSStr :=
  ((value.getD []).map jsTrim).filter (fun entry => entry.length > 0)

/-- `$\(...\)` detection half of `detectShellOperators`: an occurrence of
a dollar and open parenthesis with a close parenthesis after it. -/
def hasDollarParen : List Char → Bool
  | '$' :: '(' :: rest => rest.contains ')' || hasDollarParen rest
  | _ :: rest => hasDollarParen rest
  | [] => false

/-- `detectShellOperators`. -/
def detectShellOperators (input : JSStr) : Bool :=
  input.any (fun c => c = '|' || c = ';' || c = '&' || c = '>' || c = '<' ||
    isTick c) || hasDollarParen input

/-- `node:path` `basename` (posix): strip trailing slashes, take the last
segment; a string of slashes only gives `/`, the empty string gives itself. -/
def basename (p : JSStr) : JSStr :=
  let revTrim := p.reverse.dropWhile (fun c => c = '/')
  if revTrim = [] then (if p = [] then [] else js "/")
  else (revTrim.takeWhile (fun c => c ≠ '/')).reverse

/-- `toCommandName`. -/
def toCommandName (cmd : JSStr) : JSStr :=
  if cmd = [] then [] else basename (jsTrim cmd)

/-- `normalizeDomain`. -/
def normalizeDomain (input : JSStr) : JSStr :=
  if input = [] then [] else jsToLower (jsTrim input)

/-- `domainMatches`: exact or dot-suffix. -/
def domainMatches (domain entry : JSStr) : Bool :=
  if domain = [] || entry = [] then false
  else domain = entry || jsEndsWith domain ('.' :: entry)

inductive DecisionAction where
  | allow
  | deny
  | needs_approval
  | sandbox_only
deriving DecidableEq

structure DecisionReason where
  reason_code : JSStr
  detail : Option JSStr
  evidence : Option JSStr
deriving DecidableEq

structure Decision where
  api_version : Nat
  action : DecisionAction
  reasons : List DecisionReason
  suggested_mitigations : Option (List JSStr)
deriving DecidableEq

structure ToolSection where
  allowlist : Option (List JSStr)
  denylist : Option (List JSStr)
  elevated_requires_approval : Option Bool
  sandbox_only : Option (List JSStr)
deriving DecidableEq

/-- `policy.tool ?? {}`. -/
instance : Inhabited ToolSection :=
  ⟨{ allowlist := none, denylist := none, elevated_requires_approval := none,
     sandbox_only := none }⟩

structure ExecSection where
  allow_cmds : Option (List JSStr)
  deny_cmds : Option (List JSStr)
  deny_patterns : Option (List JSStr)
deriving DecidableEq

structure PathsSection where
  allow : Option (List JSStr)
  deny : Option (List JSStr)
deriving DecidableEq

structure UrlsSection where
  allow_domains : Option (List JSStr)
  deny_domains : Option (List JSStr)
  deny_schemes : Option (List JSStr)
deriving DecidableEq

structure PolicyThresholds where
  scan_deny_at : Option Int
  scan_approve_at : Option Int
deriving DecidableEq

structure Policy where
  tool : Option ToolSection
  exec : Option ExecSection
  paths : Option PathsSection
  urls : Option UrlsSection
  thresholds : Option PolicyThresholds
deriving DecidableEq

/-- The argument fields the evaluator reads from a tool call (`cmd`,
`args`, `path`, `url`), parsed defensively. -/
structure ToolCallArgs where
  cmd : Option JSStr
  args : Option (List JSStr)
  path : Option JSStr
  url : Option JSStr
deriving DecidableEq

structure ToolCallContext where
  tool_name : JSStr
  args : ToolCallArgs
deriving DecidableEq

/-- Result of `new URL(url)` as far as the evaluator reads it. -/
structure URLParts where
  protocol : JSStr
  hostname : JSStr
deriving DecidableEq

def DEFAULT_DENY_SCHEMES : List JSStr := [js "file", js "data", js "javascript"]

def DEFAULT_DENY_DOMAINS : List JSStr :=
  [js "localhost", js "127.0.0.1", js "169.254.169.254"]

def DEFAULT_DENY_PATHS : List JSStr :=
  [js ".ssh", js "id_rsa", js "keychain", js "Keychains", js "Cookies",
   js ".env", js "AWS_SECRET_ACCESS_KEY", js "GITHUB_TOKEN"]

/-- `buildDecision`. -/
def buildDecision (action : DecisionAction) (reasons : List DecisionReason)
    (mitigations : Option (List JSStr)) : Decision :=
  { api_version := 1, action := action, reasons := reasons,
    suggested_mitigations := mitigations }

/-- `deny`. -/
def denyDecision (reason_code : JSStr) (detail evidence : Option JSStr) : Decision :=
  buildDecision .deny [{ reason_code := reason_code, detail := detail, evidence := evidence }] none

/-- `needsApproval`. -/
def needsApprovalDecision (reason_code : JSStr) (detail evidence : Option JSStr) : Decision :=
  buildDecision .needs_approval [{ reason_code := reason_code, detail := detail, evidence := evidence }] none

/-- `toolMatchesPattern`: exact match, or a single trailing `*` as a
starts-with pattern. -/
def toolMatchesPattern (toolName pat : JSStr) : Bool :=
  if pat = [] then false
  else if jsEndsWith pat (js "*") then pat.dropLast.isPrefixOf toolName
  else toolName = pat

/-- `replace(':', '')` on the URL protocol (first occurrence). -/
def dropFirstColon : List Char → List Char
  | [] => []
  | c :: rest => if c = ':' then rest else c :: dropFirstColon rest

/-- The joined `cmd + args` string. -/
def joinedArgs (call : ToolCallContext) : JSStr :=
  List.intercalate (js " ") ((call.args.cmd.getD []) :: (call.args.args.getD []))

/-- The exec block of `evaluateToolCall` (entered only for `system_exec`);
`some d` models an early `return d`. `regexTest pat input` is
`new RegExp(pat, 'i').test(input)`, `none` modelling a throwing
constructor (invalid pattern, which the source ignores). -/
def execCheck (regexTest : JSStr → JSStr → Option Bool)
    (call : ToolCallContext) (policy : Policy) : Option Decision :=
  if call.tool_name ≠ js "system_exec" then none
  else
    let cmd := call.args.cmd.getD []
    let cmdName := toCommandName cmd
    let allowCmds := toArray (policy.exec.bind ExecSection.allow_cmds)
    let denyCmds := toArray (policy.exec.bind ExecSection.deny_cmds)
    if denyCmds.contains cmdName then
      some (denyDecision (js "exec_cmd_denylist") (some cmdName) none)
    else if allowCmds.length > 0 && !allowCmds.contains cmdName then
      some (denyDecision (js "exec_cmd_not_allowlisted") (some cmdName) none)
    else
      let allArgs := joinedArgs call
      let denyPatterns := toArray (policy.exec.bind ExecSection.deny_patterns)
      match denyPatterns.find? (fun raw => raw ≠ [] && regexTest raw allArgs = some true) with
      | some raw => some (denyDecision (js "exec_pattern_denied") (some raw) (some (allArgs.take 180)))
      | none =>
        if detectShellOperators allArgs then
          some (denyDecision (js "exec_shell_operators") (some (allArgs.take 180)) none)
        else none

/-- The path block of `evaluateToolCall`. -/
def pathCheck (call : ToolCallContext) (policy : Policy) : Option Decision :=
  if call.tool_name = js "system_read_file" || call.tool_name = js "system_write_file" then
    let path := call.args.path.getD []
    let denyPaths := toArray (some ((policy.paths.bind PathsSection.deny).getD DEFAULT_DENY_PATHS))
    match denyPaths.find? (fun entry => entry ≠ [] && jsIncludes path entry) with
    | some entry => some (denyDecision (js "path_denied") (some entry) (some path))
    | none => none
  else none

/-- The URL block of `evaluateToolCall`; `parseURL` models the throwing
`new URL(url)` constructor. -/
def urlCheck (parseURL : JSStr → Option URLParts)
    (call : ToolCallContext) (policy : Policy) : Option Decision :=
  if (js "browser_").isPrefixOf call.tool_name || call.tool_name = js "system_exec" then
    let url := call.args.url.getD []
    if url = [] then none
    else
      match parseURL url with
      | none => some (denyDecision (js "url_invalid") (some []) (some url))
      | some parsed =>
        let scheme := dropFirstColon parsed.protocol
        let denySchemes := toArray (some ((policy.urls.bind UrlsSection.deny_schemes).getD DEFAULT_DENY_SCHEMES))
        if denySchemes.contains scheme then
          some (denyDecision (js "url_scheme_denied") (some scheme) (some url))
        else
          let domain := normalizeDomain parsed.hostname
          let denyDomains := toArray (some ((policy.urls.bind UrlsSection.deny_domains).getD DEFAULT_DENY_DOMAINS))
          match denyDomains.find? (fun entry => domainMatches domain (normalizeDomain entry)) with
          | some entry => some (denyDecision (js "url_domain_denied") (some entry) (some url))
          | none =>
            let allowDomains := toArray (policy.urls.bind UrlsSection.allow_domains)
            if allowDomains.length > 0 &&
                !(allowDomains.any (fun entry => domainMatches domain (normalizeDomain entry))) then
              some (denyDecision (js "url_domain_not_allowlisted") (some domain) (some url))
            else none
  else none

/-- The sandbox decision with its standard mitigations. -/
def sandboxDecision (toolName : JSStr) : Decision :=
  buildDecision .sandbox_only
    [{ reason_code := js "sandbox_only", detail := some toolName, evidence := none }]
    (some [js "Run in an isolated sandbox", js "Disable network egress by default",
           js "Mount workspace read-only", js "Keep approvals enabled for elevated tools"])

/-- Elevated tools: `system_`, `browser_` or the workflow tool. -/
def isElevated (toolName : JSStr) : Bool :=
  (js "system_").isPrefixOf toolName || (js "browser_").isPrefixOf toolName ||
    toolName = js "workflow_tool"

/-- `evaluateToolCall`. -/
def evaluateToolCall (regexTest : JSStr → JSStr → Option Bool)
    (parseURL : JSStr → Option URLParts)
    (call : ToolCallContext) (policy : Policy) : Decision :=
  let toolName := call.tool_name
  let toolPolicy := policy.tool.getD default
  let allowlist := toArray toolPolicy.allowlist
  let denylist := toArray toolPolicy.denylist
  if denylist.contains toolName then
    denyDecision (js "tool_denylist") (some toolName) none
  else if allowlist.length > 0 && !allowlist.contains toolName then
    denyDecision (js "tool_not_allowlisted") (some toolName) none
  else
    match execCheck regexTest call policy with
    | some d => d
    | none =>
      match pathCheck call policy with
      | some d => d
      | none =>
        match urlCheck parseURL call policy with
        | some d => d
        | none =>
          let sandboxOnly := toArray toolPolicy.sandbox_only
          if sandboxOnly.any (fun entry => toolMatchesPattern toolName entry) then
            sandboxDecision toolName
          else if isElevated toolName && toolPolicy.elevated_requires_approval.getD false then
            needsApprovalDecision (js "elevated_requires_approval") (some toolName) none
          else buildDecision .allow [] none

/-! ### packages/cli/src/receipt.ts

`hash.update(string)` feeds the UTF-8 encoding of the string to SHA-256;
the byte stream a bundle feeds to the hash is modelled concretely, the
SHA-256 compression itself stays an opaque parameter. -/

/-- UTF-8 encoding of one unicode scalar. -/
def utf8EncodeChar (c : Char) : List Nat :=
  let n := c.toNat
  if n < 0x80 then [n]
  else if n < 0x800 then [0xC0 + n / 64, 0x80 + n % 64]
  else if n < 0x10000 then
    [0xE0 + n / 4096, 0x80 + (n / 64) % 64, 0x80 + n % 64]
  else
    [0xF0 + n / 262144, 0x80 + (n / 4096) % 64, 0x80 + (n / 64) % 64, 0x80 + n % 64]

/-- UTF-8 encoding of a string. -/
def utf8Encode (s : JSStr) : List Nat := s.flatMap utf8EncodeChar

/-- Insert keeping earlier-inserted equal keys later (stability helper). -/
def insertByPathCmp (cmp : JSStr → JSStr → Int) (f : SkillFile) :
    List SkillFile → List SkillFile
  | [] => [f]
  | g :: gs =>
    if cmp f.path g.path ≤ 0 then f :: g :: gs
    else g :: insertByPathCmp cmp f gs

/-- `[...bundle.files].sort((a, b) => a.path.localeCompare(b.path))`: a
stable sort by the comparator `cmp` standing for `localeCompare`. -/
def sortFilesByPath (cmp : JSStr → JSStr → Int) : List SkillFile → List SkillFile
  | [] => []
  | f :: fs => insertByPathCmp cmp f (sortFilesByPath cmp fs)

/-- The content bytes one file feeds to the hash: `content_text` when
truthy (UTF-8), else base64-decoded `content_bytes_b64` when truthy,
else nothing. -/
def fileHashBytes (b64dec : JSStr → List Nat) (f : SkillFile) : List Nat :=
  if f.content_text.getD [] ≠ [] then utf8Encode (f.content_text.getD [])
  else if f.content_bytes_b64.getD [] ≠ [] then b64dec (f.content_bytes_b64.getD [])
  else []

/-- One file's contribution to the content hash stream:
`path`, newline, content bytes, newline. -/
def fileHashContrib (b64dec : JSStr → List Nat) (f : SkillFile) : List Nat :=
  utf8Encode f.path ++ [10] ++ fileHashBytes b64dec f ++ [10]

/-- The full byte stream `bundleContentHash` feeds to SHA-256. -/
def contentHashStream (b64dec : JSStr → List Nat) (cmp : JSStr → JSStr → Int)
    (bundle : SkillBundle) : List Nat :=
  (sortFilesByPath cmp bundle.files).flatMap (fileHashContrib b64dec)

/-- `bundleContentHash(...).sha256`. -/
def bundleContentHash (sha256 : List Nat → JSStr) (b64dec : JSStr → List Nat)
    (cmp : JSStr → JSStr → Int) (bundle : SkillBundle) : JSStr :=
  sha256 (contentHashStream b64dec cmp bundle)

/-- Manifest-sort analogue of `insertByPathCmp`. -/
def insertEntryByPathCmp (cmp : JSStr → JSStr → Int) (e : SkillManifestEntry) :
    List SkillManifestEntry → List SkillManifestEntry
  | [] => [e]
  | g :: gs =>
    if cmp e.path g.path ≤ 0 then e :: g :: gs
    else g :: insertEntryByPathCmp cmp e gs

/-- Stable sort of manifest entries by path. -/
def sortEntriesByPath (cmp : JSStr → JSStr → Int) :
    List SkillManifestEntry → List SkillManifestEntry
  | [] => []
  | e :: es => insertEntryByPathCmp cmp e (sortEntriesByPath cmp es)

/-- One manifest entry's contribution to the manifest hash stream. -/
def manifestHashContrib (e : SkillManifestEntry) : List Nat :=
  utf8Encode e.path ++ [10] ++
  utf8Encode ((e.size_bytes.map intToJsStr).getD []) ++ [10] ++
  utf8Encode (e.sha256.getD []) ++ [10] ++
  utf8Encode (if e.sha256_partial.getD false then js "partial" else []) ++ [10] ++
  utf8Encode (if e.is_binary.getD false then js "binary" else []) ++ [10] ++
  utf8Encode (if e.is_executable.getD false then js "exec" else []) ++ [10] ++
  utf8Encode (if e.is_symlink.getD false then js "symlink" else []) ++ [10] ++
  utf8Encode (if e.is_archive.getD false then js "archive" else []) ++ [10] ++
  utf8Encode (e.skipped_reason.getD []) ++ [10]

/-- `bundleManifestHash`: `null` when there is no manifest or it is empty. -/
def bundleManifestHash (sha256 : List Nat → JSStr) (cmp : JSStr → JSStr → Int)
    (bundle : SkillBundle) : Option JSStr :=
  match bundle.manifest with
  | none => none
  | some entries =>
    if entries = [] then none
    else some (sha256 ((sortEntriesByPath cmp entries).flatMap manifestHashContrib))

/-! ### packages/cli/src/trust.ts -/

structure TrustRecord where
  created_at : JSStr
  source_input : JSStr
  content_sha256 : JSStr
  manifest_sha256 : Option JSStr
deriving DecidableEq

structure TrustStore where
  records : List TrustRecord
deriving DecidableEq

inductive TrustStatus where
  /-- `{ status: 'trusted', record }`. -/
  | trusted (record : TrustRecord)
  /-- `{ status: 'untrusted', reason: 'not_pinned' }`. -/
  | untrusted
deriving DecidableEq

/-- The record predicate inside `trustStatusForBundle`: reject on content
mismatch; reject when both manifest hashes are truthy (present and
nonempty) and differ. -/
def trustRecordMatches (contentSha : JSStr) (manifestSha : Option JSStr)
    (r : TrustRecord) : Bool :=
  if r.content_sha256 ≠ contentSha then false
  else if manifestSha.getD [] ≠ [] && r.manifest_sha256.getD [] ≠ [] &&
      r.manifest_sha256 ≠ manifestSha then false
  else true

/-- `trustStatusForBundle`. -/
def trustStatusForBundle (sha256 : List Nat → JSStr) (b64dec : JSStr → List Nat)
    (cmp : JSStr → JSStr → Int) (bundle : SkillBundle) (store : TrustStore) :
    TrustStatus :=
  let contentSha := bundleContentHash sha256 b64dec cmp bundle
  let manifestSha := bundleManifestHash sha256 cmp bundle
  match store.records.find? (trustRecordMatches contentSha manifestSha) with
  | some r => .trusted r
  | none => .untrusted

/-! ### `loadTrustStore`

`loadTrustStore(path)` reads the file and runs `JSON.parse` on it with no
surrounding try/catch; its behaviour is a function of whether the file
exists and of the parse result, modelled as `Option (Option Json)`:
`none` = missing file, `some none` = present but `JSON.parse` throws,
`some (some v)` = parsed value `v`. -/

inductive Json where
  | null
  | bool (b : Bool)
  | num (n : Int)
  | str (s : JSStr)
  | arr (items : List Json)
  | obj (fields : List (JSStr × Json))

/-- JavaScript truthiness of a parsed JSON value (`NaN` cannot come out of
`JSON.parse`). -/
def jsonTruthy : Json → Bool
  | .null => false
  | .bool b => b
  | .num n => n ≠ 0
  | .str s => s ≠ []
  | .arr _ => true
  | .obj _ => true

/-- Property access `value.field` (`none` = `undefined`). -/
def jsonGet (v : Json) (field : JSStr) : Option Json :=
  match v with
  | .obj fields => (fields.find? (fun f => f.1 = field)).map (fun f => f.2)
  | _ => none

/-- The store as `loadTrustStore` returns it: the source casts the parsed
`records` array with no further validation, so the records stay raw JSON. -/
structure JsonTrustStore where
  records : List Json

/-- `{ trust_store_version: 1, records: [] }`. -/
def emptyJsonTrustStore : JsonTrustStore := ⟨[]⟩

/-- `loadTrustStore`: missing file gives the empty store; an unparseable
file propagates the `JSON.parse` exception (`.error`); a parsed value that
is falsy, has `trust_store_version ≠ 1` or a non-array `records` gives the
empty store; otherwise the records array is returned as-is. -/
def loadTrustStore : Option (Option Json) → Except Unit JsonTrustStore
  | none => .ok emptyJsonTrustStore
  | some none => .error ()
  | some (some parsed) =>
    if !jsonTruthy parsed then .ok emptyJsonTrustStore
    else
      match jsonGet parsed (js "trust_store_version"), jsonGet parsed (js "records") with
      | some (.num 1), some (.arr records) => .ok ⟨records⟩
      | _, _ => .ok emptyJsonTrustStore

/-! ### packages/cli/src/cli.ts, `scan-source` limit flags -/

/-- `--max-total-bytes`: `clampInt(parseInt(raw), 1_000, 200_000_000)`;
`none` models a failed parse (`NaN`). -/
def scanSourceMaxTotalBytes (raw : Option Int) : Int :=
  clampInt raw 1000 200000000

/-- `--max-zip-bytes`: `clampInt(parseInt(raw), 1_000, 200_000_000)`. -/
def scanSourceMaxZipBytes (raw : Option Int) : Int :=
  clampInt raw 1000 200000000

/-! ### Specification-side predicates and projections

These restate properties of the claims independently of the embedded
code, so the claim theorems compare code against specification rather
than unfolding a definition into itself. -/

/-- The path-safety predicate of claim C1 and invariant I1: no NUL, not
starting with `/` or `\`, and no `.` or `..` segment after splitting
on `/`. -/
def validZipName (name : JSStr) : Bool :=
  !(name.contains (Char.ofNat 0)) &&
  (match name with
   | [] => true
   | c :: _ => !(c = '/' || c = '\\')) &&
  ((splitOnChar '/' name).all (fun p => p ≠ js "." && p ≠ js ".."))

/-- The decoded raw names of the central-directory records, in record
order, mirroring the offsets the parser walks (empty past any record the
parser would reject). -/
def centralDirRawNames (decode : List Nat → JSStr) (buf : Buffer) :
    Nat → Nat → List JSStr
  | 0, _ => []
  | n + 1, off =>
    if off + 46 > buf.length then []
    else if u32 buf off ≠ 0x02014b50 then []
    else
      let fileNameLen := u16 buf (off + 28)
      let extraLen := u16 buf (off + 30)
      let commentLen := u16 buf (off + 32)
      decode ((buf.drop (off + 46)).take fileNameLen) ::
        centralDirRawNames decode buf n (off + 46 + fileNameLen + extraLen + commentLen)

/-- All decoded entry names of an archive, valid or not. -/
def zipRawNames (decode : List Nat → JSStr) (buf : Buffer) : List JSStr :=
  match findEndOfCentralDirectory buf with
  | none => []
  | some eocd => centralDirRawNames decode buf (u16 buf (eocd + 10)) (u32 buf (eocd + 16))

/-- Sum of the scores of the rules matched by a list of findings
(score 0 for an unknown rule id), as the specification states it. -/
def sumScoresSpec (rules : List Rule) (findings : List ScanFinding) : Int :=
  (findings.map (fun f =>
    ((rules.find? (fun rule => rule.id = f.rule_id)).map Rule.score).getD 0)).sum

/-- The severity floor of a list of findings, as the specification states
it: the maximum of the per-severity floors, 0 when there are none. -/
def severityFloorSpec (findings : List ScanFinding) : Int :=
  (findings.map (fun f => severityFloor f.severity)).foldr max 0

/-- 1-based line number of a character index: newlines before it, plus 1. -/
def lineAt (text : JSStr) (index : Nat) : Nat :=
  (text.take index).count '\n' + 1

/-- Two findings agree on the dedup tuple
`(rule_id, file, line, column, evidence)`. -/
def sameFindingTuple (f g : ScanFinding) : Prop :=
  f.rule_id = g.rule_id ∧ f.file = g.file ∧ f.line = g.line ∧
    f.column = g.column ∧ f.evidence = g.evidence

/-- The exec deny conditions of the evaluator, as one predicate. -/
def execDenyCond (regexTest : JSStr → JSStr → Option Bool)
    (call : ToolCallContext) (policy : Policy) : Bool :=
  call.tool_name = js "system_exec" &&
  ((toArray (policy.exec.bind ExecSection.deny_cmds)).contains
      (toCommandName (call.args.cmd.getD [])) ||
   ((toArray (policy.exec.bind ExecSection.allow_cmds)).length > 0 &&
    !(toArray (policy.exec.bind ExecSection.allow_cmds)).contains
      (toCommandName (call.args.cmd.getD []))) ||
   (toArray (policy.exec.bind ExecSection.deny_patterns)).any
      (fun raw => raw ≠ [] && regexTest raw (joinedArgs call) = some true) ||
   detectShellOperators (joinedArgs call))

/-- The path deny condition of the evaluator. -/
def pathDenyCond (call : ToolCallContext) (policy : Policy) : Bool :=
  (call.tool_name = js "system_read_file" || call.tool_name = js "system_write_file") &&
  (toArray (some ((policy.paths.bind PathsSection.deny).getD DEFAULT_DENY_PATHS))).any
    (fun entry => entry ≠ [] && jsIncludes (call.args.path.getD []) entry)

/-- The URL deny conditions of the evaluator, as one predicate. -/
def urlDenyCond (parseURL : JSStr → Option URLParts)
    (call : ToolCallContext) (policy : Policy) : Bool :=
  ((js "browser_").isPrefixOf call.tool_name || call.tool_name = js "system_exec") &&
  (call.args.url.getD [] ≠ []) &&
  (match parseURL (call.args.url.getD []) with
   | none => true
   | some parsed =>
     (toArray (some ((policy.urls.bind UrlsSection.deny_schemes).getD DEFAULT_DENY_SCHEMES))).contains
        (dropFirstColon parsed.protocol) ||
     (toArray (some ((policy.urls.bind UrlsSection.deny_domains).getD DEFAULT_DENY_DOMAINS))).any
        (fun entry => domainMatches (normalizeDomain parsed.hostname) (normalizeDomain entry)) ||
     ((toArray (policy.urls.bind UrlsSection.allow_domains)).length > 0 &&
      !((toArray (policy.urls.bind UrlsSection.allow_domains)).any
          (fun entry => domainMatches (normalizeDomain parsed.hostname) (normalizeDomain entry)))))

/-- Any deny condition of the evaluator holds. -/
def denyCond (regexTest : JSStr → JSStr → Option Bool)
    (parseURL : JSStr → Option URLParts)
    (call : ToolCallContext) (policy : Policy) : Bool :=
  (toArray ((policy.tool.getD default).denylist)).contains call.tool_name ||
  ((toArray ((policy.tool.getD default).allowlist)).length > 0 &&
   !(toArray ((policy.tool.getD default).allowlist)).contains call.tool_name) ||
  execDenyCond regexTest call policy ||
  pathDenyCond call policy ||
  urlDenyCond parseURL call policy

/-- The tool name matches a sandbox-only pattern. -/
def sandboxCond (call : ToolCallContext) (policy : Policy) : Bool :=
  (toArray ((policy.tool.getD default).sandbox_only)).any
    (fun entry => toolMatchesPattern call.tool_name entry)

/-- The tool is elevated and the policy requires approval for that. -/
def elevatedCond (call : ToolCallContext) (policy : Policy) : Bool :=
  isElevated call.tool_name &&
    ((policy.tool.getD default).elevated_requires_approval.getD false)

/-! ### Concrete inputs used by counterexamples and witnesses -/

/-- UTF-8 decoding restricted to pure-ASCII byte lists (where it agrees
with `Buffer.prototype.toString('utf8')`); instantiates the opaque
`decode` parameter on concrete inputs. -/
def asciiDecode (bytes : List Nat) : JSStr := bytes.map Char.ofNat

/-- An inflate stub for concrete archives that contain no deflated entry. -/
def inflateStub : List Nat → Except JSStr (List Nat) := fun _ => .error []

/-- A base64 decoder stub for concrete bundles that carry no base64 file. -/
def b64decStub : JSStr → List Nat := fun _ => []

/-- Code-point comparison; agrees with `localeCompare` on the ASCII
lower-case names of the concrete bundles below. -/
def byteCmp : JSStr → JSStr → Int
  | [], [] => 0
  | [], _ :: _ => -1
  | _ :: _, [] => 1
  | a :: as, b :: bs =>
    if a.toNat < b.toNat then -1
    else if b.toNat < a.toNat then 1
    else byteCmp as bs

/-- A well-formed one-entry archive: local header for `a.md` (stored,
2 data bytes `hi`), its central-directory record, and the end record. -/
def demoZip : Buffer :=
  [0x50, 0x4B, 0x03, 0x04] ++ List.replicate 14 0 ++
    [2, 0, 0, 0] ++ [2, 0, 0, 0] ++ [4, 0] ++ [0, 0] ++
    [97, 46, 109, 100] ++ [104, 105] ++
  [0x50, 0x4B, 0x01, 0x02] ++ List.replicate 16 0 ++
    [2, 0, 0, 0] ++ [2, 0, 0, 0] ++ [4, 0] ++ [0, 0] ++ [0, 0] ++
    [0, 0] ++ [0, 0] ++ [0, 0, 0, 0] ++ [0, 0, 0, 0] ++
    [97, 46, 109, 100] ++
  [0x50, 0x4B, 0x05, 0x06] ++ [0, 0] ++ [0, 0] ++ [1, 0] ++ [1, 0] ++
    [50, 0, 0, 0] ++ [36, 0, 0, 0] ++ [0, 0]

/-- The bundle the zip ingest builds from `demoZip`. -/
def demoBundle : SkillBundle :=
  { id := js "demo"
    entrypoint := js "SKILL.md"
    files := [{ path := js "a.md", content_text := some (js "hi"),
                content_bytes_b64 := none }]
    manifest := some [{ (default : SkillManifestEntry) with
      path := js "a.md"
      size_bytes := some 2
      is_symlink := some false
      is_executable := some false
      is_archive := some false
      is_binary := some false
      source_kind := some (js "zip") }]
    ingest_warnings := none
    source := some (js "unknown") }

/-- A local-header-plus-data buffer whose stored data is longer than the
central directory declared (`uncompressedSize = 1`, five stored bytes). -/
def zipBombBuf : Buffer :=
  [0x50, 0x4B, 0x03, 0x04] ++ List.replicate 26 0 ++ [1, 2, 3, 4, 5]

/-- The central-directory metadata of that entry: method 0 (store),
`compressedSize = 5`, declared `uncompressedSize = 1`. -/
def zipBombEntry : ZipEntry :=
  { name := js "a.txt", compressedSize := 5, uncompressedSize := 1,
    compressionMethod := 0, localHeaderOffset := 0, externalAttrs := 0,
    isDirectory := false, rawName := js "a.txt" }

/-- Limits with a 2-byte entry cap. -/
def zipBombLimits : ZipLimits :=
  { maxEntries := 200, maxTotalUncompressedBytes := 5000000, maxEntryBytes := 2 }

/-- Concrete bundle builder for the hashing counterexamples. -/
def pairsBundle (fs : List (JSStr × JSStr)) : SkillBundle :=
  { id := js "b", entrypoint := js "SKILL.md",
    files := fs.map (fun p =>
      { path := p.1, content_text := some p.2, content_bytes_b64 := none }),
    manifest := none, ingest_warnings := none, source := none }

/-- Bundle with files `a ↦ "x\np\ny"` and `p ↦ "z"`. -/
def collideBundleX : SkillBundle :=
  pairsBundle [(js "a", js "x\np\ny"), (js "p", js "z")]

/-- Bundle with files `a ↦ "x"` and `p ↦ "y\np\nz"`. -/
def collideBundleY : SkillBundle :=
  pairsBundle [(js "a", js "x"), (js "p", js "y\np\nz")]

/-- A SHA-256 stub (the C6 matching logic is hash-agnostic). -/
def shaStub : List Nat → JSStr := fun _ => js "h"

/-- A bundle with no manifest (as the remote single-`SKILL.md` ingest
produces), so its manifest hash is `null`. -/
def noManifestBundle : SkillBundle :=
  { id := js "b", entrypoint := js "SKILL.md", files := [],
    manifest := none, ingest_warnings := none, source := none }

/-- A pin whose content hash matches `shaStub` and which carries a
manifest hash. -/
def pinnedRecord : TrustRecord :=
  { created_at := [], source_input := [], content_sha256 := js "h",
    manifest_sha256 := some (js "zz") }

def pinnedStore : TrustStore := ⟨[pinnedRecord]⟩

/-- A one-match regex engine used by concrete rule-engine witnesses. -/
def curlMatchAll : JSStr → JSStr → JSStr → List (Nat × JSStr) :=
  fun _ _ _ => [(0, js "curl")]

/-- A concrete codeblock signal (fence opening on line 1 of `SKILL.md`). -/
def curlSignal : ScanSignal :=
  { type := Selector.codeblock, text := js "curl\n", file := some (js "SKILL.md"),
    offset := none, baseLine := some 2 }

/-- A concrete rule selecting codeblocks. -/
def curlRule : Rule :=
  { id := js "R1", title := js "t", severity := Severity.high,
    reason_code := js "rc", selectors := [Selector.codeblock],
    match_re := js "curl", flags := none, score := 5 }

/-- The finding the engine produces from `curlRule` on `curlSignal`. -/
def curlFinding : ScanFinding :=
  { rule_id := js "R1", severity := Severity.high, reason_code := js "rc",
    file := some (js "SKILL.md"), line := some 2, column := some 1,
    evidence := js "curl" }

end ClawGuard

namespace ClawGuard

/-! ## Helper lemmas -/

theorem foldl_add_eq_sum (g : ScanFinding → Int) :
    ∀ (l : List ScanFinding) (init : Int),
      l.foldl (fun s f => s + g f) init = init + (l.map g).sum := by
  intro l
  induction l with
  | nil => intro init; simp
  | cons f t ih =>
    intro init
    simp only [List.foldl_cons, List.map_cons, List.sum_cons, ih]
    ring

theorem foldl_max_eq_spec (g : ScanFinding → Int) :
    ∀ (l : List ScanFinding) (init : Int), 0 ≤ init →
      l.foldl (fun m f => max m (g f)) init = max init ((l.map g).foldr max 0) := by
  intro l
  induction l with
  | nil => intro init h; simp; omega
  | cons f t ih =>
    intro init h
    simp only [List.foldl_cons, List.map_cons, List.foldr_cons]
    rw [ih (max init (g f)) (le_trans h (le_max_left _ _))]
    omega

theorem mem_le_foldr_max (g : ScanFinding → Int) (f : ScanFinding) :
    ∀ l : List ScanFinding, f ∈ l → g f ≤ (l.map g).foldr max 0 := by
  intro l
  induction l with
  | nil => intro h; cases h
  | cons x t ih =>
    intro h
    simp only [List.map_cons, List.foldr_cons]
    rcases List.mem_cons.mp h with h | h
    · subst h; exact le_max_left _ _
    · exact le_trans (ih h) (le_max_right _ _)

theorem foldr_max_nonneg (g : ScanFinding → Int) (l : List ScanFinding) :
    0 ≤ (l.map g).foldr max 0 := by
  induction l with
  | nil => simp
  | cons x t ih =>
    simp only [List.map_cons, List.foldr_cons]
    exact le_trans ih (le_max_right _ _)

/-- The dedup loop emits findings with pairwise distinct keys, none of
which was already seen. -/
theorem dedupeFindingsGo_keys :
    ∀ (l : List ScanFinding) (seen : List JSStr),
      (dedupeFindingsGo l seen).Pairwise (fun f g => dedupeKey f ≠ dedupeKey g) ∧
      ∀ f ∈ dedupeFindingsGo l seen, dedupeKey f ∉ seen := by
  intro l
  induction l with
  | nil =>
    intro seen
    exact ⟨List.Pairwise.nil, by intro f h; cases h⟩
  | cons f rest ih =>
    intro seen
    unfold dedupeFindingsGo
    by_cases hc : dedupeKey f ∈ seen
    · have hb : seen.contains (dedupeKey f) = true := by simpa using hc
      rw [if_pos hb]
      exact ih seen
    · have hb : ¬ seen.contains (dedupeKey f) = true := by simpa using hc
      rw [if_neg hb]
      refine ⟨List.Pairwise.cons ?_ (ih (dedupeKey f :: seen)).1, ?_⟩
      · intro g hg
        have hnotin := (ih (dedupeKey f :: seen)).2 g hg
        intro hEq
        exact hnotin (hEq ▸ List.mem_cons_self _ _)
      · intro g hg
        rcases List.mem_cons.mp hg with rfl | hg'
        · exact hc
        · have hnotin := (ih (dedupeKey f :: seen)).2 g hg'
          exact fun hmem => hnotin (List.mem_cons_of_mem _ hmem)

/-- Equal dedup tuples give equal dedup keys. -/
theorem dedupeKey_congr {f g : ScanFinding} (h : sameFindingTuple f g) :
    dedupeKey f = dedupeKey g := by
  obtain ⟨h1, h2, h3, h4, h5⟩ := h
  unfold dedupeKey
  rw [h1, h2, h3, h4, h5]

theorem splitOnChar_ne_nil (sep : Char) (l : List Char) :
    splitOnChar sep l ≠ [] := by
  induction l with
  | nil => simp [splitOnChar]
  | cons c rest ih =>
    unfold splitOnChar
    by_cases h : c = sep
    · simp [h]
    · simp only [h, if_false]
      cases hr : splitOnChar sep rest with
      | nil => exact absurd hr ih
      | cons a t => simp

theorem splitOnChar_length (sep : Char) (l : List Char) :
    (splitOnChar sep l).length = l.count sep + 1 := by
  induction l with
  | nil => simp [splitOnChar]
  | cons c rest ih =>
    unfold splitOnChar
    by_cases h : c = sep
    · subst h
      simp [List.count_cons, ih]
    · simp only [h, if_false]
      cases hr : splitOnChar sep rest with
      | nil => exact absurd hr (splitOnChar_ne_nil sep rest)
      | cons a t =>
        rw [hr] at ih
        simp only [List.length_cons] at ih ⊢
        rw [List.count_cons]
        simp [h, ih]

/-- The line half of `indexToLineCol` counts newlines before the index. -/
theorem indexToLineCol_line (text : JSStr) (index : Nat) :
    (indexToLineCol text index).1 = lineAt text index := by
  unfold indexToLineCol lineAt
  by_cases h : index = 0
  · simp [h]
  · simp only [h, if_false]
    exact splitOnChar_length '\n' (text.take index)

theorem find?_isSome_eq_any {α : Type} (p : α → Bool) (l : List α) :
    (l.find? p).isSome = l.any p := by
  cases hf : l.find? p with
  | none =>
    have : l.any p = false := by
      rw [List.any_eq_false]
      intro x hx
      have := List.find?_eq_none.mp hf x hx
      simpa using this
    simp [this]
  | some x =>
    have : l.any p = true :=
      List.any_eq_true.mpr ⟨x, List.mem_of_find?_eq_some hf, List.find?_some hf⟩
    simp [this]

/-- Every early return of the exec block is a deny. -/
theorem execCheck_action (regexTest : JSStr → JSStr → Option Bool)
    (call : ToolCallContext) (policy : Policy) (d : Decision)
    (h : execCheck regexTest call policy = some d) : d.action = .deny := by
  unfold execCheck at h
  dsimp only at h
  repeat' split at h
  all_goals first
    | exact Option.noConfusion h
    | (injection h with h2; exact h2 ▸ rfl)

/-- Every early return of the path block is a deny. -/
theorem pathCheck_action (call : ToolCallContext) (policy : Policy)
    (d : Decision) (h : pathCheck call policy = some d) : d.action = .deny := by
  unfold pathCheck at h
  dsimp only at h
  repeat' split at h
  all_goals first
    | exact Option.noConfusion h
    | (injection h with h2; exact h2 ▸ rfl)

/-- Every early return of the URL block is a deny. -/
theorem urlCheck_action (parseURL : JSStr → Option URLParts)
    (call : ToolCallContext) (policy : Policy) (d : Decision)
    (h : urlCheck parseURL call policy = some d) : d.action = .deny := by
  unfold urlCheck at h
  dsimp only at h
  repeat' split at h
  all_goals first
    | exact Option.noConfusion h
    | (injection h with h2; exact h2 ▸ rfl)

/-- The exec block fires exactly when one of its deny conditions holds. -/
theorem execCheck_isSome (regexTest : JSStr → JSStr → Option Bool)
    (call : ToolCallContext) (policy : Policy) :
    (execCheck regexTest call policy).isSome = execDenyCond regexTest call policy := by
  unfold execCheck execDenyCond
  dsimp only
  repeat' split
  all_goals simp_all [← find?_isSome_eq_any]

/-- The path block fires exactly when its deny condition holds. -/
theorem pathCheck_isSome (call : ToolCallContext) (policy : Policy) :
    (pathCheck call policy).isSome = pathDenyCond call policy := by
  unfold pathCheck pathDenyCond
  dsimp only
  repeat' split
  all_goals simp_all [← find?_isSome_eq_any]

/-- The URL block fires exactly when one of its deny conditions holds. -/
theorem urlCheck_isSome (parseURL : JSStr → Option URLParts)
    (call : ToolCallContext) (policy : Policy) :
    (urlCheck parseURL call policy).isSome = urlDenyCond parseURL call policy := by
  unfold urlCheck urlDenyCond
  dsimp only
  repeat' split
  all_goals simp_all [← find?_isSome_eq_any]

theorem splitOnChar_not_mem_sep (sep : Char) (l : List Char) :
    ∀ p ∈ splitOnChar sep l, sep ∉ p := by
  induction l with
  | nil =>
    intro p hp
    simp only [splitOnChar, List.mem_singleton] at hp
    subst hp
    simp
  | cons c rest ih =>
    intro p hp
    unfold splitOnChar at hp
    by_cases h : c = sep
    · simp only [h, if_true] at hp
      rcases List.mem_cons.mp hp with rfl | hp'
      · simp
      · exact ih p hp'
    · simp only [h, if_false] at hp
      cases hr : splitOnChar sep rest with
      | nil => exact absurd hr (splitOnChar_ne_nil sep rest)
      | cons a t =>
        rw [hr] at hp
        rcases List.mem_cons.mp hp with rfl | hp'
        · intro hmem
          rcases List.mem_cons.mp hmem with he | hmem'
          · exact h he.symm
          · exact ih a (hr ▸ List.mem_cons_self a t) hmem'
        · exact ih p (hr ▸ List.mem_cons_of_mem a hp')

theorem mem_of_mem_splitOnChar (sep : Char) (l : List Char) :
    ∀ p ∈ splitOnChar sep l, ∀ c ∈ p, c ∈ l := by
  induction l with
  | nil =>
    intro p hp c hc
    simp only [splitOnChar, List.mem_singleton] at hp
    subst hp
    cases hc
  | cons x rest ih =>
    intro p hp c hc
    unfold splitOnChar at hp
    by_cases h : x = sep
    · simp only [h, if_true] at hp
      rcases List.mem_cons.mp hp with rfl | hp'
      · cases hc
      · exact List.mem_cons_of_mem x (ih p hp' c hc)
    · simp only [h, if_false] at hp
      cases hr : splitOnChar sep rest with
      | nil => exact absurd hr (splitOnChar_ne_nil sep rest)
      | cons a t =>
        rw [hr] at hp
        rcases List.mem_cons.mp hp with rfl | hp'
        · rcases List.mem_cons.mp hc with rfl | hc'
          · exact List.mem_cons_self c rest
          · exact List.mem_cons_of_mem x
              (ih a (hr ▸ List.mem_cons_self a t) c hc')
        · exact List.mem_cons_of_mem x
            (ih p (hr ▸ List.mem_cons_of_mem a hp') c hc)

theorem splitOnChar_sepFree (sep : Char) (p : List Char) (h : sep ∉ p) :
    splitOnChar sep p = [p] := by
  induction p with
  | nil => rfl
  | cons c rest ih =>
    unfold splitOnChar
    have hc : ¬ c = sep := fun he => h (he ▸ List.mem_cons_self c rest)
    rw [ih (fun hm => h (List.mem_cons_of_mem c hm))]
    simp [hc]

theorem splitOnChar_append_sep (sep : Char) (p rest : List Char) (h : sep ∉ p) :
    splitOnChar sep (p ++ sep :: rest) = p :: splitOnChar sep rest := by
  induction p with
  | nil => simp [splitOnChar]
  | cons c p' ih =>
    have hc : ¬ c = sep := fun he => h (he ▸ List.mem_cons_self c p')
    have hrec := ih (fun hm => h (List.mem_cons_of_mem c hm))
    rw [List.cons_append]
    unfold splitOnChar
    rw [hrec]
    simp only [hc, if_false]
    cases rest <;> rfl

theorem splitOnChar_joinWith (sep : Char) :
    ∀ parts : List (List Char), parts ≠ [] → (∀ p ∈ parts, sep ∉ p) →
      splitOnChar sep (joinWith sep parts) = parts := by
  intro parts
  induction parts with
  | nil => intro h; exact absurd rfl h
  | cons p ps ih =>
    intro _ hfree
    cases ps with
    | nil =>
      unfold joinWith
      exact splitOnChar_sepFree sep p (hfree p (List.mem_cons_self p []))
    | cons q ps' =>
      unfold joinWith
      rw [splitOnChar_append_sep sep p _ (hfree p (List.mem_cons_self p (q :: ps')))]
      rw [ih (by simp) (fun r hr => hfree r (List.mem_cons_of_mem p hr))]

theorem mem_joinWith (sep : Char) :
    ∀ (parts : List (List Char)) (c : Char), c ∈ joinWith sep parts →
      c = sep ∨ ∃ p ∈ parts, c ∈ p := by
  intro parts
  induction parts with
  | nil => intro c hc; cases hc
  | cons p ps ih =>
    intro c hc
    cases ps with
    | nil =>
      unfold joinWith at hc
      exact Or.inr ⟨p, List.mem_cons_self p [], hc⟩
    | cons q ps' =>
      unfold joinWith at hc
      rcases List.mem_append.mp hc with hc' | hc'
      · exact Or.inr ⟨p, List.mem_cons_self p (q :: ps'), hc'⟩
      · rcases List.mem_cons.mp hc' with rfl | hc''
        · exact Or.inl rfl
        · rcases ih c hc'' with h | ⟨r, hr, hcr⟩
          · exact Or.inl h
          · exact Or.inr ⟨r, List.mem_cons_of_mem p hr, hcr⟩

theorem joinWith_cons_eq_append (sep : Char) (p : List Char)
    (rest : List (List Char)) : ∃ t, joinWith sep (p :: rest) = p ++ t := by
  cases rest with
  | nil => exact ⟨[], by simp [joinWith]⟩
  | cons q ps => exact ⟨sep :: joinWith sep (q :: ps), rfl⟩

theorem splitOnChar_cons_head (sep c : Char) (rest : List Char) (hc : c ≠ sep) :
    ∃ h t, splitOnChar sep (c :: rest) = (c :: h) :: t := by
  unfold splitOnChar
  cases hr : splitOnChar sep rest with
  | nil => exact absurd hr (splitOnChar_ne_nil sep rest)
  | cons a t => exact ⟨a, t, by simp [hc]⟩

/-- Central lemma for C1: a name accepted by `sanitizeZipPath` satisfies
the path-safety predicate. -/
theorem sanitizeZipPath_valid (name nm : JSStr)
    (h : sanitizeZipPath name = some nm) : validZipName nm = true := by
  unfold sanitizeZipPath at h
  dsimp only at h
  by_cases h1 : name = []
  · rw [if_pos h1] at h; cases h
  rw [if_neg h1] at h
  by_cases h2 : name.contains (Char.ofNat 0) = true
  · rw [if_pos h2] at h; cases h
  rw [if_neg h2] at h
  by_cases h3 : ((js "/").isPrefixOf name || (js "\\").isPrefixOf name) = true
  · rw [if_pos h3] at h; cases h
  rw [if_neg h3] at h
  by_cases h4 : ((splitOnChar '/' name).filter (fun p => p.length > 0)).any
      (fun p => p = js "." || p = js "..") = true
  · rw [if_pos h4] at h; cases h
  rw [if_neg h4] at h
  injection h with h
  subst h
  have hsub : ∀ p ∈ (splitOnChar '/' name).filter (fun p => p.length > 0),
      p ∈ splitOnChar '/' name := fun p hp => List.mem_of_mem_filter hp
  have hfree : ∀ p ∈ (splitOnChar '/' name).filter (fun p => p.length > 0),
      '/' ∉ p := fun p hp => splitOnChar_not_mem_sep '/' name p (hsub p hp)
  unfold validZipName
  simp only [Bool.and_eq_true]
  refine ⟨⟨?_, ?_⟩, ?_⟩
  · -- no NUL in the joined name
    simp only [Bool.not_eq_true']
    by_contra hcon
    simp only [Bool.not_eq_false] at hcon
    have hmem : Char.ofNat 0 ∈ joinWith '/'
        ((splitOnChar '/' name).filter (fun p => p.length > 0)) := by
      simpa using hcon
    rcases mem_joinWith '/' _ _ hmem with he | ⟨p, hp, hcp⟩
    · exact absurd he (by decide)
    · have : Char.ofNat 0 ∈ name :=
        mem_of_mem_splitOnChar '/' name p (hsub p hp) _ hcp
      exact h2 (by simpa using this)
  · -- the joined name does not start with a slash or backslash
    cases hj : joinWith '/' ((splitOnChar '/' name).filter (fun p => p.length > 0)) with
    | nil => rfl
    | cons c nmrest =>
      cases hparts : (splitOnChar '/' name).filter (fun p => p.length > 0) with
      | nil => rw [hparts] at hj; cases hj
      | cons p0 ps =>
        -- p0 is nonempty and is the first piece of the split of name
        have hp0ne : p0 ≠ [] := by
          have : p0 ∈ (splitOnChar '/' name).filter (fun p => p.length > 0) := by
            rw [hparts]; exact List.mem_cons_self p0 ps
          have := List.of_mem_filter this
          simp only [decide_eq_true_eq] at this
          intro he
          rw [he] at this
          simp at this
        cases hname : name with
        | nil => exact absurd hname h1
        | cons c0 restn =>
          have hc0s : c0 ≠ '/' ∧ c0 ≠ '\\' := by
            rw [hname] at h3
            constructor <;> intro he <;> subst he <;>
              simp [List.isPrefixOf, js] at h3
          have hc0 : c0 ≠ '/' := hc0s.1
          obtain ⟨hh, tt, hsplit⟩ := splitOnChar_cons_head '/' c0 restn hc0
          have hfilter : (splitOnChar '/' name).filter (fun p => p.length > 0) =
              (c0 :: hh) :: tt.filter (fun p => p.length > 0) := by
            rw [hname, hsplit]
            simp [List.filter_cons]
          rw [hfilter] at hj hparts
          injection hparts with hp0 hps
          obtain ⟨t, hjoin⟩ := joinWith_cons_eq_append '/' (c0 :: hh)
            (tt.filter (fun p => p.length > 0))
          rw [hjoin] at hj
          rw [List.cons_append] at hj
          injection hj with hc hrest
          subst hc
          simp [hc0s.1, hc0s.2]
  · -- splitting the joined name gives back the parts, none of them dots
    cases hparts : (splitOnChar '/' name).filter (fun p => p.length > 0) with
    | nil =>
      simp [joinWith, splitOnChar, js]
    | cons p0 ps =>
      rw [splitOnChar_joinWith '/' (p0 :: ps) (by simp)
        (fun p hp => hfree p (hparts ▸ hp))]
      rw [List.all_eq_true]
      intro p hp
      have hpf : p ∈ (splitOnChar '/' name).filter (fun p => p.length > 0) :=
        hparts ▸ hp
      have hmemsp := List.mem_of_mem_filter hpf
      have hlen : 0 < p.length := by
        have := List.of_mem_filter hpf
        simpa using this
      have h4' : ∀ x ∈ splitOnChar '/' name, 0 < x.length →
          ¬x = js "." ∧ ¬x = js ".." := by
        simpa using h4
      have hne := h4' p hmemsp hlen
      simp [hne.1, hne.2]

/-- The central-directory loop splits the decoded names into sanitized
entries and invalid paths, in order. -/
theorem parseCentralDirectory_spec (decode : List Nat → JSStr) (buf : Buffer) :
    ∀ (n off : Nat) (acc d : ZipListDiagnostics),
      parseCentralDirectory decode buf n off acc = .ok d →
      d.invalidPaths = acc.invalidPaths ++
        (centralDirRawNames decode buf n off).filter
          (fun r => (sanitizeZipPath r).isNone) ∧
      d.entries.map ZipEntry.name = acc.entries.map ZipEntry.name ++
        (centralDirRawNames decode buf n off).filterMap sanitizeZipPath := by
  intro n
  induction n with
  | zero =>
    intro off acc d h
    unfold parseCentralDirectory at h
    injection h with h
    subst h
    simp [centralDirRawNames]
  | succ n ih =>
    intro off acc d h
    unfold parseCentralDirectory at h
    unfold centralDirRawNames
    dsimp only at h ⊢
    by_cases hb1 : off + 46 > buf.length
    · rw [if_pos hb1] at h; cases h
    rw [if_neg hb1] at h
    rw [if_neg hb1]
    by_cases hb2 : u32 buf off ≠ 0x02014b50
    · rw [if_pos hb2] at h; cases h
    rw [if_neg hb2] at h
    rw [if_neg hb2]
    cases hs : sanitizeZipPath (decode ((buf.drop (off + 46)).take (u16 buf (off + 28)))) with
    | none =>
      rw [hs] at h
      have := ih _ _ _ h
      rw [this.1, this.2]
      simp [List.filter_cons, List.filterMap_cons, hs]
    | some nm =>
      rw [hs] at h
      have := ih _ _ _ h
      rw [this.1, this.2]
      simp [List.filter_cons, List.filterMap_cons, hs]

/-- Selection only picks from the given entries (or the accumulator). -/
theorem selectZipFilesGo_subset (limits : ZipLimits) :
    ∀ (entries picked : List ZipEntry) (total : Nat),
      ∀ e ∈ selectZipFilesGo limits entries picked total,
        e ∈ picked ∨ e ∈ entries := by
  intro entries
  induction entries with
  | nil =>
    intro picked total e he
    unfold selectZipFilesGo at he
    exact Or.inl he
  | cons entry rest ih =>
    intro picked total e he
    unfold selectZipFilesGo at he
    by_cases h1 : picked.length ≥ limits.maxEntries
    · rw [if_pos h1] at he; exact Or.inl he
    rw [if_neg h1] at he
    by_cases h2 : entry.isDirectory = true
    · rw [if_pos h2] at he
      rcases ih picked total e he with h | h
      · exact Or.inl h
      · exact Or.inr (List.mem_cons_of_mem entry h)
    rw [if_neg h2] at he
    by_cases h3 : entry.uncompressedSize = 0
    · rw [if_pos h3] at he
      rcases ih picked total e he with h | h
      · exact Or.inl h
      · exact Or.inr (List.mem_cons_of_mem entry h)
    rw [if_neg h3] at he
    by_cases h4 : entry.uncompressedSize > limits.maxEntryBytes
    · rw [if_pos h4] at he
      rcases ih picked total e he with h | h
      · exact Or.inl h
      · exact Or.inr (List.mem_cons_of_mem entry h)
    rw [if_neg h4] at he
    by_cases h5 : total + entry.uncompressedSize > limits.maxTotalUncompressedBytes
    · rw [if_pos h5] at he; exact Or.inl he
    rw [if_neg h5] at he
    rcases ih (picked ++ [entry]) _ e he with h | h
    · rcases List.mem_append.mp h with h' | h'
      · exact Or.inl h'
      · simp only [List.mem_singleton] at h'
        exact Or.inr (h' ▸ List.mem_cons_self entry rest)
    · exact Or.inr (List.mem_cons_of_mem entry h)

/-- Every extracted file takes its path from one of the picked entries. -/
theorem extractPickedFiles_paths (decode : List Nat → JSStr)
    (inflate : List Nat → Except JSStr (List Nat)) (bytes : Buffer)
    (zLimits : ZipLimits) :
    ∀ (picked : List ZipEntry) (files : List SkillFile),
      extractPickedFiles decode inflate bytes zLimits picked = .ok files →
      ∀ f ∈ files, ∃ e ∈ picked, f.path = e.name := by
  intro picked
  induction picked with
  | nil =>
    intro files h f hf
    unfold extractPickedFiles at h
    injection h with h
    subst h
    cases hf
  | cons entry rest ih =>
    intro files h f hf
    unfold extractPickedFiles at h
    by_cases h1 : (!isLikelyTextPath entry.name) = true
    · rw [if_pos h1] at h
      obtain ⟨e, he, hp⟩ := ih files h f hf
      exact ⟨e, List.mem_cons_of_mem entry he, hp⟩
    rw [if_neg h1] at h
    cases hx : extractZipEntry inflate bytes entry zLimits with
    | error e => rw [hx] at h; exact absurd h (by simp)
    | ok contentOpt =>
      cases contentOpt with
      | none =>
        rw [hx] at h
        obtain ⟨e, he, hp⟩ := ih files h f hf
        exact ⟨e, List.mem_cons_of_mem entry he, hp⟩
      | some contentBytes =>
        rw [hx] at h
        dsimp only at h
        by_cases h2 : looksBinary contentBytes = true
        · rw [if_pos h2] at h
          obtain ⟨e, he, hp⟩ := ih files h f hf
          exact ⟨e, List.mem_cons_of_mem entry he, hp⟩
        rw [if_neg h2] at h
        cases hr : extractPickedFiles decode inflate bytes zLimits rest with
        | error e => rw [hr] at h; cases h
        | ok files' =>
          rw [hr] at h
          injection h with h
          subst h
          rcases List.mem_cons.mp hf with rfl | hf'
          · exact ⟨entry, List.mem_cons_self entry rest, rfl⟩
          · obtain ⟨e, he, hp⟩ := ih files' hr f hf'
            exact ⟨e, List.mem_cons_of_mem entry he, hp⟩

/-- The archive listing splits all decoded central-directory names into
sanitized entries (in order) and the invalid-path list (in order), and
every accepted entry name passes the path-safety predicate. -/
theorem listZipEntriesWithDiagnostics_spec (decode : List Nat → JSStr)
    (buf : Buffer) (zl : ZipLimits) (d : ZipListDiagnostics)
    (hd : listZipEntriesWithDiagnostics decode buf zl = .ok d) :
    (∀ e ∈ d.entries, validZipName e.name = true) ∧
    d.invalidPaths = (zipRawNames decode buf).filter
      (fun r => (sanitizeZipPath r).isNone) ∧
    d.entries.map ZipEntry.name = (zipRawNames decode buf).filterMap sanitizeZipPath := by
  unfold listZipEntriesWithDiagnostics at hd
  unfold zipRawNames
  cases hfe : findEndOfCentralDirectory buf with
  | none => rw [hfe] at hd; cases hd
  | some eocd =>
    rw [hfe] at hd
    dsimp only at hd
    by_cases hb1 : u16 buf (eocd + 10) > zl.maxEntries
    · rw [if_pos hb1] at hd; cases hd
    rw [if_neg hb1] at hd
    by_cases hb2 : u32 buf (eocd + 16) + u32 buf (eocd + 12) > buf.length
    · rw [if_pos hb2] at hd; cases hd
    rw [if_neg hb2] at hd
    have hspec := parseCentralDirectory_spec decode buf _ _ ⟨[], []⟩ d hd
    refine ⟨?_, by simpa using hspec.1, by simpa using hspec.2⟩
    intro e he
    have hmem : e.name ∈ d.entries.map ZipEntry.name := List.mem_map_of_mem _ he
    rw [hspec.2] at hmem
    simp only [List.map_nil, List.nil_append] at hmem
    rcases List.mem_filterMap.mp hmem with ⟨raw, _, hsan⟩
    exact sanitizeZipPath_valid raw e.name hsan

/-- Filtering a signal list of the extractor shape for codeblocks keeps
exactly the codeblock block. -/
theorem filter_codeblock_parts (msig : ScanSignal)
    (hm : msig.type ≠ Selector.codeblock) (cb us ps : List ScanSignal)
    (hcb : ∀ s ∈ cb, s.type = Selector.codeblock)
    (hus : ∀ s ∈ us, s.type ≠ Selector.codeblock)
    (hps : ∀ s ∈ ps, s.type ≠ Selector.codeblock) :
    ((msig :: cb) ++ us ++ ps).filter (fun s => s.type = Selector.codeblock) = cb := by
  have h1 : cb.filter (fun s => decide (s.type = Selector.codeblock)) = cb :=
    List.filter_eq_self.mpr (fun s hs => by simp [hcb s hs])
  have h2 : us.filter (fun s => decide (s.type = Selector.codeblock)) = [] :=
    List.filter_eq_nil_iff.mpr (fun s hs => by simp [hus s hs])
  have h3 : ps.filter (fun s => decide (s.type = Selector.codeblock)) = [] :=
    List.filter_eq_nil_iff.mpr (fun s hs => by simp [hps s hs])
  simp [List.filter_append, List.filter_cons, hm, h1, h2, h3]

end ClawGuard

namespace ClawGuard

/-! ## Claims -/

/-- C4: the claim says `extractZipEntry` returns a buffer of at most
`limits.maxEntryBytes` bytes. The code only checks the declared
`uncompressedSize` from the central directory against the cap; for a
stored entry whose declared size understates the stored data (and for a
deflated entry, whose inflate is run without an output cap), the returned
buffer exceeds `maxEntryBytes`. Here the declared size 1 passes the cap 2
but the extraction returns the 5 stored bytes. -/
theorem extractZipEntry_exceedsCap :
    extractZipEntry inflateStub zipBombBuf zipBombEntry zipBombLimits =
      .ok (some [1, 2, 3, 4, 5]) ∧
    zipBombEntry.uncompressedSize ≤ zipBombLimits.maxEntryBytes ∧
    zipBombLimits.maxEntryBytes < ([1, 2, 3, 4, 5] : List Nat).length := by
  refine ⟨by rfl, by decide, by decide⟩

/-- C5 counterexample: when the trust-store file is present but its
contents are not parseable JSON, `loadTrustStore` propagates the
`JSON.parse` exception instead of returning the empty store. -/
theorem loadTrustStore_unparseable_throws :
    loadTrustStore (some none) = .error () ∧
    (Except.error () : Except Unit JsonTrustStore) ≠ .ok emptyJsonTrustStore := by
  refine ⟨rfl, by simp⟩

/-- C5 (amended): a missing file yields the empty store; a parsed value
that is falsy, whose `trust_store_version` is not the number 1, or whose
`records` is not an array yields the empty store without failing; an
unparseable file propagates the parse exception. -/
theorem loadTrustStore_spec :
    loadTrustStore none = .ok emptyJsonTrustStore ∧
    (∀ j : Json, ¬ jsonTruthy j →
      loadTrustStore (some (some j)) = .ok emptyJsonTrustStore) ∧
    (∀ j : Json, jsonGet j (js "trust_store_version") ≠ some (.num 1) →
      loadTrustStore (some (some j)) = .ok emptyJsonTrustStore) ∧
    (∀ j : Json, (∀ xs, jsonGet j (js "records") ≠ some (.arr xs)) →
      loadTrustStore (some (some j)) = .ok emptyJsonTrustStore) ∧
    loadTrustStore (some none) = .error () := by
  refine ⟨rfl, ?_, ?_, ?_, rfl⟩
  · intro j h
    unfold loadTrustStore
    simp [h]
  · intro j h
    unfold loadTrustStore
    by_cases ht : jsonTruthy j
    · simp only [ht, Bool.not_true, Bool.false_eq_true, if_false]
      split
      · next hv _ => exact absurd hv h
      · rfl
    · simp [ht]
  · intro j h
    unfold loadTrustStore
    by_cases ht : jsonTruthy j
    · simp only [ht, Bool.not_true, Bool.false_eq_true, if_false]
      split
      · next _ hr => exact absurd hr (h _)
      · rfl
    · simp [ht]

/-- C5 witness: an empty JSON object parses, is truthy, has no
`trust_store_version`, and yields the empty store. -/
theorem loadTrustStore_spec_witness :
    loadTrustStore (some (some (Json.obj []))) = .ok emptyJsonTrustStore :=
  loadTrustStore_spec.2.2.1 (Json.obj []) (by simp [jsonGet])

/-- C9 counterexample: `scan-source` clamps `--max-total-bytes` and
`--max-zip-bytes` with minimum 1 000, so values below the minima the
claim states (10 000 and 50 000) are used as given. -/
theorem scanSourceClamp_minIs1000 :
    scanSourceMaxTotalBytes (some 2000) = 2000 ∧ (2000 : Int) < 10000 ∧
    scanSourceMaxZipBytes (some 30000) = 30000 ∧ (30000 : Int) < 50000 := by
  refine ⟨by decide, by decide, by decide, by decide⟩

/-- C9 (amended): both flags are clamped into `[1_000, 200_000_000]`
(minimum also taken for an unparseable value), and an in-range value is
used unchanged. -/
theorem scanSourceClamp_spec :
    ∀ raw : Option Int,
      1000 ≤ scanSourceMaxTotalBytes raw ∧
      scanSourceMaxTotalBytes raw ≤ 200000000 ∧
      1000 ≤ scanSourceMaxZipBytes raw ∧
      scanSourceMaxZipBytes raw ≤ 200000000 ∧
      (∀ v : Int, raw = some v → 1000 ≤ v → v ≤ 200000000 →
        scanSourceMaxTotalBytes raw = v ∧ scanSourceMaxZipBytes raw = v) := by
  intro raw
  cases raw with
  | none =>
    refine ⟨by decide, by decide, by decide, by decide, ?_⟩
    intro v hv
    cases hv
  | some v =>
    have ht : scanSourceMaxTotalBytes (some v) = min 200000000 (max 1000 v) := rfl
    have hz : scanSourceMaxZipBytes (some v) = min 200000000 (max 1000 v) := rfl
    refine ⟨?_, ?_, ?_, ?_, ?_⟩
    · rw [ht]; omega
    · rw [ht]; omega
    · rw [hz]; omega
    · rw [hz]; omega
    · intro w hw h1 h2
      injection hw with hw
      subst hw
      rw [ht, hz]
      omega

/-- C9 witness: the default 5 000 000 passes through both clamps. -/
theorem scanSourceClamp_spec_witness :
    scanSourceMaxTotalBytes (some 5000000) = 5000000 ∧
    scanSourceMaxZipBytes (some 5000000) = 5000000 :=
  (scanSourceClamp_spec (some 5000000)).2.2.2.2 5000000 rfl (by decide) (by decide)

/-- C10 counterexample: two bundles whose sorted `(path, content bytes)`
sequences differ (`a ↦ x\np\ny, p ↦ z` versus `a ↦ x, p ↦ y\np\nz`) feed
the identical byte stream `a\nx\np\ny\np\nz\n` to SHA-256, so the path/
content framing of `bundleContentHash` is not injective and the two
bundles receive the same `content_sha256`. -/
theorem contentHashStream_collision :
    contentHashStream b64decStub byteCmp collideBundleX =
      contentHashStream b64decStub byteCmp collideBundleY ∧
    (sortFilesByPath byteCmp collideBundleX.files).map
        (fun f => (f.path, fileHashBytes b64decStub f)) ≠
      (sortFilesByPath byteCmp collideBundleY.files).map
        (fun f => (f.path, fileHashBytes b64decStub f)) := by
  refine ⟨by rfl, by decide⟩

/-- C10 (amended): the stream is only injective up to this framing; what
trust pinning needs survives: if the sorted file sequences agree except
that one file keeps its path but changes its content bytes, the byte
streams differ. -/
theorem contentHashStream_singleChange (b64dec : JSStr → List Nat)
    (cmp : JSStr → JSStr → Int) (b1 b2 : SkillBundle)
    (A B : List SkillFile) (f g : SkillFile)
    (h1 : sortFilesByPath cmp b1.files = A ++ f :: B)
    (h2 : sortFilesByPath cmp b2.files = A ++ g :: B)
    (hp : f.path = g.path)
    (hc : fileHashBytes b64dec f ≠ fileHashBytes b64dec g) :
    contentHashStream b64dec cmp b1 ≠ contentHashStream b64dec cmp b2 := by
  intro heq
  unfold contentHashStream at heq
  rw [h1, h2] at heq
  simp only [List.flatMap_append, List.flatMap_cons] at heq
  have h3 := List.append_cancel_left heq
  have h4 := List.append_cancel_right h3
  unfold fileHashContrib at h4
  rw [hp] at h4
  have h5 := List.append_cancel_right h4
  exact hc (List.append_cancel_left h5)

/-- C10 witness: two one-file bundles with the same path `a` and contents
`x` versus `y` produce different byte streams. -/
theorem contentHashStream_singleChange_witness :
    contentHashStream b64decStub byteCmp (pairsBundle [(js "a", js "x")]) ≠
      contentHashStream b64decStub byteCmp (pairsBundle [(js "a", js "y")]) :=
  contentHashStream_singleChange b64decStub byteCmp _ _ [] []
    { path := js "a", content_text := some (js "x"), content_bytes_b64 := none }
    { path := js "a", content_text := some (js "y"), content_bytes_b64 := none }
    (by rfl) (by rfl) (by rfl) (by decide)

/-- The record predicate of `trustStatusForBundle`, propositionally. -/
theorem trustRecordMatches_iff (c : JSStr) (m : Option JSStr) (r : TrustRecord) :
    trustRecordMatches c m r = true ↔
      (r.content_sha256 = c ∧
        ¬(m.getD [] ≠ [] ∧ r.manifest_sha256.getD [] ≠ [] ∧ r.manifest_sha256 ≠ m)) := by
  unfold trustRecordMatches
  by_cases h1 : r.content_sha256 = c
  · simp only [h1, ne_eq, not_true_eq_false, if_false, true_and]
    by_cases h2 : m.getD [] ≠ [] ∧ r.manifest_sha256.getD [] ≠ [] ∧ r.manifest_sha256 ≠ m
    · simp [h2.1, h2.2.1, h2.2.2]
    · push_neg at h2
      by_cases hm : m.getD [] = []
      · simp [hm]
      · by_cases hr : r.manifest_sha256.getD [] = []
        · simp [hm, hr]
        · have := h2 hm hr
          simp [hm, hr, this]
  · simp [h1]

/-- C6 (amended): `trustStatusForBundle` reports trusted iff some record
matches on content hash and the manifest hashes do not conflict: the
record lacks one, the bundle lacks one (for example when it has no
manifest), or both are present and equal. The claim as stated requires
the record to lack a manifest hash or both hashes to be equal, which the
counterexample below refutes. -/
theorem trustStatus_trusted_iff (sha256 : List Nat → JSStr)
    (b64dec : JSStr → List Nat) (cmp : JSStr → JSStr → Int)
    (bundle : SkillBundle) (store : TrustStore) :
    (∃ r, trustStatusForBundle sha256 b64dec cmp bundle store = .trusted r) ↔
      ∃ r ∈ store.records,
        r.content_sha256 = bundleContentHash sha256 b64dec cmp bundle ∧
        ¬((bundleManifestHash sha256 cmp bundle).getD [] ≠ [] ∧
          r.manifest_sha256.getD [] ≠ [] ∧
          r.manifest_sha256 ≠ bundleManifestHash sha256 cmp bundle) := by
  have hdef : trustStatusForBundle sha256 b64dec cmp bundle store =
      match store.records.find? (trustRecordMatches
        (bundleContentHash sha256 b64dec cmp bundle)
        (bundleManifestHash sha256 cmp bundle)) with
      | some r => .trusted r
      | none => .untrusted := rfl
  constructor
  · rintro ⟨r, hr⟩
    rw [hdef] at hr
    cases hfind : store.records.find? (trustRecordMatches
        (bundleContentHash sha256 b64dec cmp bundle)
        (bundleManifestHash sha256 cmp bundle)) with
    | none => rw [hfind] at hr; cases hr
    | some r0 =>
      rw [hfind] at hr
      refine ⟨r0, List.mem_of_find?_eq_some hfind, ?_⟩
      exact (trustRecordMatches_iff _ _ _).mp (List.find?_some hfind)
  · rintro ⟨r, hmem, hcond⟩
    have hsome : (store.records.find? (trustRecordMatches
        (bundleContentHash sha256 b64dec cmp bundle)
        (bundleManifestHash sha256 cmp bundle))).isSome := by
      apply List.find?_isSome.mpr
      exact ⟨r, hmem, (trustRecordMatches_iff _ _ _).mpr hcond⟩
    rw [hdef]
    cases hfind : store.records.find? (trustRecordMatches
        (bundleContentHash sha256 b64dec cmp bundle)
        (bundleManifestHash sha256 cmp bundle)) with
    | none => rw [hfind] at hsome; cases hsome
    | some r0 => exact ⟨r0, rfl⟩

/-- C6 witness: the amended condition holds concretely for a pinned
record whose content hash matches. -/
theorem trustStatus_trusted_iff_witness :
    ∃ r, trustStatusForBundle shaStub b64decStub byteCmp noManifestBundle
      pinnedStore = .trusted r :=
  (trustStatus_trusted_iff shaStub b64decStub byteCmp noManifestBundle
      pinnedStore).mpr
    ⟨pinnedRecord, by decide, by decide, by
      simp [bundleManifestHash, noManifestBundle]⟩

/-- C6 counterexample: a bundle without a manifest (so its manifest hash
is `null`) is reported trusted by a record that does carry a manifest
hash, although that record hash equals no bundle manifest hash — the
claim requires the record to have no manifest hash or both hashes to be
equal. -/
theorem trustStatus_matchesDespiteRecordManifest :
    trustStatusForBundle shaStub b64decStub byteCmp noManifestBundle
      pinnedStore = .trusted pinnedRecord ∧
    pinnedRecord.manifest_sha256 ≠ none ∧
    ¬(∃ h, pinnedRecord.manifest_sha256 = some h ∧
      bundleManifestHash shaStub byteCmp noManifestBundle = some h) := by
  refine ⟨by rfl, by decide, ?_⟩
  rintro ⟨h, _, hb⟩
  simp [bundleManifestHash, noManifestBundle] at hb

/-- C2: for every rule pack, regex engine and bundle, the risk score is
`clamp(max(Σ matched rule scores, severity floor), 0, 100)` with floor
mapping low 10, medium 30, high 60, critical 80; hence it lies in
`[0, 100]`, and a critical finding forces at least 80. -/
theorem scanRiskScore_spec (matchAll : JSStr → JSStr → JSStr → List (Nat × JSStr))
    (urlM pathM : JSStr → List (Nat × JSStr)) (pack : RulePack)
    (bundle : SkillBundle) :
    (scanSkillBundle matchAll urlM pathM pack bundle).risk_score =
      clamp (max (sumScoresSpec pack.rules
                    (scanSkillBundle matchAll urlM pathM pack bundle).findings)
                 (severityFloorSpec
                    (scanSkillBundle matchAll urlM pathM pack bundle).findings))
        0 100 ∧
    0 ≤ (scanSkillBundle matchAll urlM pathM pack bundle).risk_score ∧
    (scanSkillBundle matchAll urlM pathM pack bundle).risk_score ≤ 100 ∧
    (∀ f ∈ (scanSkillBundle matchAll urlM pathM pack bundle).findings,
      f.severity = Severity.critical →
        80 ≤ (scanSkillBundle matchAll urlM pathM pack bundle).risk_score) := by
  have hfind : (scanSkillBundle matchAll urlM pathM pack bundle).findings =
      dedupeFindings (applyRules matchAll (bundleSignals urlM pathM bundle) pack.rules) := rfl
  have hrisk : (scanSkillBundle matchAll urlM pathM pack bundle).risk_score =
      clamp (max
        ((dedupeFindings (applyRules matchAll (bundleSignals urlM pathM bundle) pack.rules)).foldl
          (fun sum finding =>
            sum + ((pack.rules.find? (fun rule => rule.id = finding.rule_id)).map
              Rule.score).getD 0) 0)
        ((dedupeFindings (applyRules matchAll (bundleSignals urlM pathM bundle) pack.rules)).foldl
          (fun mx finding => max mx (severityFloor finding.severity)) 0)) 0 100 := rfl
  have hsum : ∀ l : List ScanFinding,
      l.foldl (fun sum finding =>
        sum + ((pack.rules.find? (fun rule => rule.id = finding.rule_id)).map
          Rule.score).getD 0) 0 = sumScoresSpec pack.rules l := by
    intro l
    rw [foldl_add_eq_sum]
    unfold sumScoresSpec
    ring
  have hfloor : ∀ l : List ScanFinding,
      l.foldl (fun mx finding => max mx (severityFloor finding.severity)) 0 =
        severityFloorSpec l := by
    intro l
    rw [foldl_max_eq_spec _ l 0 le_rfl]
    unfold severityFloorSpec
    have := foldr_max_nonneg (fun f => severityFloor f.severity) l
    omega
  rw [hfind, hrisk, hsum, hfloor]
  refine ⟨rfl, ?_, ?_, ?_⟩
  · unfold clamp; omega
  · unfold clamp; omega
  · intro f hf hcrit
    have h80 : (80 : Int) ≤ severityFloorSpec
        (dedupeFindings (applyRules matchAll (bundleSignals urlM pathM bundle) pack.rules)) := by
      have hle := mem_le_foldr_max (fun f => severityFloor f.severity) f _ hf
      simp only [hcrit] at hle
      unfold severityFloorSpec
      simpa [severityFloor] using hle
    unfold clamp
    omega

/-- C2 witness: a pack whose single critical rule matches once produces a
report with risk score clamp(max(5, 80), 0, 100) = 80 ≥ 80. -/
theorem scanRiskScore_spec_witness :
    80 ≤ (scanSkillBundle (fun _ _ _ => [(0, js "x")]) (fun _ => [])
      (fun _ => [])
      ⟨js "pack", js "1",
        [{ id := js "R1", title := js "t", severity := Severity.critical,
           reason_code := js "rc", selectors := [Selector.file],
           match_re := js "x", flags := none, score := 5 }]⟩
      (pairsBundle [(js "a.md", js "x")])).risk_score :=
  (scanRiskScore_spec (fun _ _ _ => [(0, js "x")]) (fun _ => []) (fun _ => [])
      ⟨js "pack", js "1",
        [{ id := js "R1", title := js "t", severity := Severity.critical,
           reason_code := js "rc", selectors := [Selector.file],
           match_re := js "x", flags := none, score := 5 }]⟩
      (pairsBundle [(js "a.md", js "x")])).2.2.2
    { rule_id := js "R1", severity := Severity.critical, reason_code := js "rc",
      file := some (js "a.md"), line := some 1, column := some 1,
      evidence := js "x" }
    (by decide) rfl

/-- C8: no two findings in a scan report share the dedup tuple
`(rule_id, file, line, column, evidence)`: the scanner dedupes by that
tuple keeping the first occurrence. -/
theorem scanFindings_tupleDistinct (matchAll : JSStr → JSStr → JSStr → List (Nat × JSStr))
    (urlM pathM : JSStr → List (Nat × JSStr)) (pack : RulePack)
    (bundle : SkillBundle) :
    (scanSkillBundle matchAll urlM pathM pack bundle).findings.Pairwise
      (fun f g => ¬ sameFindingTuple f g) := by
  have hfind : (scanSkillBundle matchAll urlM pathM pack bundle).findings =
      dedupeFindings (applyRules matchAll (bundleSignals urlM pathM bundle) pack.rules) := rfl
  rw [hfind]
  have hkeys := (dedupeFindingsGo_keys
    (applyRules matchAll (bundleSignals urlM pathM bundle) pack.rules) []).1
  exact hkeys.imp (fun hne htup => hne (dedupeKey_congr htup))

/-- C7 counterexample: for the markdown text with a fence opening on
line 1, the emitted codeblock signal has `baseLine = 2` (the line where
the fenced text begins), not the line of the opening fence as the claim
states. -/
theorem fenceBaseLine_offByOne :
    extractMarkdownSignals (fun _ => []) (fun _ => [])
        (js "```sh\ncurl\n```") (js "SKILL.md") =
      [{ type := Selector.markdown, text := js "```sh\ncurl\n```",
         file := some (js "SKILL.md"), offset := none, baseLine := none },
       { type := Selector.codeblock, text := js "curl\n",
         file := some (js "SKILL.md"), offset := none, baseLine := some 2 }] ∧
    scanFences (js "```sh\ncurl\n```") = [(0, js "curl\n")] ∧
    lineAt (js "```sh\ncurl\n```") 0 = 1 ∧ (2 : Nat) ≠ 1 := by
  refine ⟨by rfl, by rfl, by rfl, by decide⟩

/-- C7 (amended): the extractor emits one codeblock signal per fence
match, whose `baseLine` is one plus the line of the fence opening (the
first line of the fenced text); and every finding of the rule engine has
`line = (baseLine ?? 1) + local_line - 1` where `local_line` is the
1-based line of the match index within the signal text. -/
theorem codeblockLines_spec :
    (∀ (urlM pathM : JSStr → List (Nat × JSStr)) (text file : JSStr),
      (extractMarkdownSignals urlM pathM text file).filter
          (fun s => s.type = Selector.codeblock) =
        (scanFences text).map (fun m =>
          { type := Selector.codeblock, text := m.2, file := some file,
            offset := none, baseLine := some (lineAt text m.1 + 1) })) ∧
    (∀ (matchAll : JSStr → JSStr → JSStr → List (Nat × JSStr))
        (signals : List ScanSignal) (rules : List Rule) (f : ScanFinding),
      f ∈ applyRules matchAll signals rules →
        ∃ rule ∈ rules, ∃ signal ∈ signals,
          ∃ m ∈ matchAll rule.match_re (rule.flags.getD (js "gi")) signal.text,
            f.line = some (signal.baseLine.getD 1 + lineAt signal.text m.1 - 1)) := by
  constructor
  · intro urlM pathM text file
    have hshape : extractMarkdownSignals urlM pathM text file =
        ({ type := Selector.markdown, text := text, file := some file,
           offset := none, baseLine := none } ::
          (scanFences text).map (fun m =>
            { type := Selector.codeblock, text := m.2, file := some file,
              offset := none,
              baseLine := some ((splitOnChar '\n' (text.take m.1)).length + 1) })) ++
        (urlM text).map (fun m =>
          { type := Selector.url, text := m.2, file := some file,
            offset := some m.1,
            baseLine := some (splitOnChar '\n' (text.take m.1)).length }) ++
        (pathM text).map (fun m =>
          { type := Selector.path, text := jsTrim m.2, file := some file,
            offset := some m.1,
            baseLine := some (splitOnChar '\n' (text.take m.1)).length }) := rfl
    rw [hshape, filter_codeblock_parts]
    · apply List.map_congr_left
      intro m _
      have : (splitOnChar '\n' (text.take m.1)).length = lineAt text m.1 := by
        rw [splitOnChar_length]
        rfl
      rw [this]
    · simp
    · intro s hs
      rcases List.mem_map.mp hs with ⟨m, _, rfl⟩
      rfl
    · intro s hs
      rcases List.mem_map.mp hs with ⟨m, _, rfl⟩
      simp
    · intro s hs
      rcases List.mem_map.mp hs with ⟨m, _, rfl⟩
      simp
  · intro matchAll signals rules f hf
    unfold applyRules at hf
    rcases List.mem_flatMap.mp hf with ⟨rule, hrule, hf2⟩
    rcases List.mem_flatMap.mp hf2 with ⟨signal, hsig, hf3⟩
    by_cases hsel : rule.selectors.contains signal.type
    · rw [if_pos hsel] at hf3
      rcases List.mem_map.mp hf3 with ⟨m, hm, heq⟩
      refine ⟨rule, hrule, signal, hsig, m, hm, ?_⟩
      rw [← heq]
      simp only []
      rw [indexToLineCol_line]
    · rw [if_neg hsel] at hf3
      cases hf3

/-- C3: the evaluator applies a strict precedence: any deny condition
(tool denylist, allowlist miss, exec command/pattern/shell-operator
checks, path deny, URL scheme/domain checks) gives deny; otherwise a
sandbox_only pattern match gives sandbox_only; otherwise an elevated
tool (`system_`/`browser_` name or `workflow_tool`) with
`elevated_requires_approval` gives needs_approval; otherwise allow. -/
theorem policyPrecedence (regexTest : JSStr → JSStr → Option Bool)
    (parseURL : JSStr → Option URLParts)
    (call : ToolCallContext) (policy : Policy) :
    (evaluateToolCall regexTest parseURL call policy).action =
      (if denyCond regexTest parseURL call policy then .deny
       else if sandboxCond call policy then .sandbox_only
       else if elevatedCond call policy then .needs_approval
       else .allow) := by
  unfold evaluateToolCall denyCond sandboxCond elevatedCond
  dsimp only
  by_cases h1 : call.tool_name ∈ toArray ((policy.tool.getD default).denylist)
  · simp [h1, denyDecision, buildDecision]
  · by_cases h2 : 0 < (toArray ((policy.tool.getD default).allowlist)).length ∧
        call.tool_name ∉ toArray ((policy.tool.getD default).allowlist)
    · simp [h1, h2, denyDecision, buildDecision]
    · cases he : execCheck regexTest call policy with
      | some d =>
        have ha := execCheck_action regexTest call policy d he
        have hcond : execDenyCond regexTest call policy = true := by
          rw [← execCheck_isSome, he]; rfl
        simp [h1, h2, he, ha, hcond]
      | none =>
        have hcond : execDenyCond regexTest call policy = false := by
          rw [← execCheck_isSome, he]; rfl
        cases hp : pathCheck call policy with
        | some d =>
          have ha := pathCheck_action call policy d hp
          have hcond2 : pathDenyCond call policy = true := by
            rw [← pathCheck_isSome, hp]; rfl
          simp [h1, h2, he, hp, ha, hcond, hcond2]
        | none =>
          have hcond2 : pathDenyCond call policy = false := by
            rw [← pathCheck_isSome, hp]; rfl
          cases hu : urlCheck parseURL call policy with
          | some d =>
            have ha := urlCheck_action parseURL call policy d hu
            have hcond3 : urlDenyCond parseURL call policy = true := by
              rw [← urlCheck_isSome, hu]; rfl
            simp [h1, h2, he, hp, hu, ha, hcond, hcond2, hcond3]
          | none =>
            have hcond3 : urlDenyCond parseURL call policy = false := by
              rw [← urlCheck_isSome, hu]; rfl
            by_cases hs : ∃ x ∈ toArray ((policy.tool.getD default).sandbox_only),
                toolMatchesPattern call.tool_name x = true
            · simp [h1, h2, he, hp, hu, hcond, hcond2, hcond3, hs,
                sandboxDecision, buildDecision]
            · by_cases hel : isElevated call.tool_name = true ∧
                  ((policy.tool.getD default).elevated_requires_approval.getD false) = true
              · simp [h1, h2, he, hp, hu, hcond, hcond2, hcond3, hs, hel,
                  needsApprovalDecision, buildDecision]
              · simp [h1, h2, he, hp, hu, hcond, hcond2, hcond3, hs, hel,
                  buildDecision]

/-- C3 witness: a call to `system_exec` whose joined arguments contain a
pipe is denied under the empty policy sections (shell-operator check). -/
theorem policyPrecedence_witness :
    (evaluateToolCall (fun _ _ => none) (fun _ => none)
      { tool_name := js "system_exec",
        args := { cmd := some (js "curl"), args := some [js "https://x.com", js "|", js "sh"],
                  path := none, url := none } }
      { tool := none, exec := none, paths := none, urls := none,
        thresholds := none }).action = DecisionAction.deny := by
  rw [policyPrecedence]
  rfl

/-- C7 witness: the rule-engine half of the line formula at a concrete
codeblock signal with `baseLine = 2` and a match at index 0. -/
theorem codeblockLines_spec_witness :
    ∃ rule ∈ [curlRule], ∃ signal ∈ [curlSignal],
      ∃ m ∈ curlMatchAll rule.match_re (rule.flags.getD (js "gi")) signal.text,
        curlFinding.line =
          some (signal.baseLine.getD 1 + lineAt signal.text m.1 - 1) :=
  codeblockLines_spec.2 curlMatchAll [curlSignal] [curlRule] curlFinding (by decide)

/-- C1: every entry name the archive reader accepts passes the
path-safety predicate (no NUL, no leading `/` or `\`, no `.`/`..`
segment); every rejected raw name lands in the invalid-paths list (and
accepted ones in the entries, in order); and every file of a bundle the
zip ingest builds has a safe relative path. -/
theorem zipPathSanitization (decode : List Nat → JSStr)
    (inflate : List Nat → Except JSStr (List Nat)) (buf : Buffer)
    (zl : ZipLimits) (il : IngestLimits) (id : JSStr) :
    (∀ d, listZipEntriesWithDiagnostics decode buf zl = .ok d →
      (∀ e ∈ d.entries, validZipName e.name = true) ∧
      d.invalidPaths = (zipRawNames decode buf).filter
        (fun r => (sanitizeZipPath r).isNone) ∧
      d.entries.map ZipEntry.name =
        (zipRawNames decode buf).filterMap sanitizeZipPath) ∧
    (∀ bundle, buildBundleFromZipBytesInternal decode inflate buf il id = .ok bundle →
      ∀ f ∈ bundle.files, validZipName f.path = true) := by
  constructor
  · intro d hd
    exact listZipEntriesWithDiagnostics_spec decode buf zl d hd
  · intro bundle hb
    unfold buildBundleFromZipBytesInternal at hb
    dsimp only at hb
    cases hl : listZipEntriesWithDiagnostics decode buf (zipLimitsFromIngest il) with
    | error e => rw [hl] at hb; cases hb
    | ok listing =>
      rw [hl] at hb
      dsimp only at hb
      cases hx : extractPickedFiles decode inflate buf (zipLimitsFromIngest il)
          (selectZipFilesForScan listing.entries (zipLimitsFromIngest il)) with
      | error e => rw [hx] at hb; cases hb
      | ok files =>
        rw [hx] at hb
        injection hb with hb
        subst hb
        intro f hf
        obtain ⟨e, hePicked, hpath⟩ := extractPickedFiles_paths decode inflate buf
          (zipLimitsFromIngest il) _ files hx f hf
        have heEntries : e ∈ listing.entries := by
          rcases selectZipFilesGo_subset (zipLimitsFromIngest il)
              listing.entries [] 0 e hePicked with h | h
          · cases h
          · exact h
        have hvalid := (listZipEntriesWithDiagnostics_spec decode buf
          (zipLimitsFromIngest il) listing hl).1 e heEntries
        rw [hpath]
        exact hvalid

/-- C1 witness: a one-entry archive round-trips through the ingest and
its single file path `a.md` is safe. -/
theorem zipPathSanitization_witness : validZipName (js "a.md") = true :=
  (zipPathSanitization asciiDecode inflateStub demoZip
      (zipLimitsFromIngest DEFAULT_INGEST_LIMITS) DEFAULT_INGEST_LIMITS
      (js "demo")).2 demoBundle (by rfl)
    { path := js "a.md", content_text := some (js "hi"),
      content_bytes_b64 := none }
    (by decide)

end ClawGuard
